import Mathlib

/-!
Verification of the person-identity resolution and attendance-ingestion
engine of `import_luma_attendance.py`.

The Python source is shallowly embedded: database tables become lists of
records, SQL statements become list operations, and the per-row processing
becomes explicit state passing.  Library calls that the source delegates to
(`difflib.SequenceMatcher.ratio`, `pandas.to_datetime`) are abstracted as
function parameters; their numeric results are modelled as exact rationals.
-/

namespace Luma

/-! ## Python string primitives used by the source -/

/-- Lower-case a string character by character (Python `str.lower` on the
ASCII inputs this pipeline handles). -/
def pyLower (s : String) : String :=
  String.mk (s.toList.map Char.toLower)

/-- Python `str.strip`: drop whitespace from both ends. -/
def pyStrip (s : String) : String :=
  String.mk (((s.toList.dropWhile Char.isWhitespace).reverse.dropWhile
    Char.isWhitespace).reverse)

/-- Python `str.title` (ASCII): upper-case the first letter of each
alphabetic run, lower-case the rest of the run. -/
def pyTitleAux : Bool → List Char → List Char
  | _, [] => []
  | prevAlpha, c :: cs =>
    if c.isAlpha then
      (if prevAlpha then c.toLower else c.toUpper) :: pyTitleAux true cs
    else
      c :: pyTitleAux false cs

/-- Python `str.title` on a whole string. -/
def pyTitle (s : String) : String :=
  String.mk (pyTitleAux false s.toList)

/-- Python `str.isdigit` (ASCII): non-empty and all digits. -/
def pyIsDigit (s : String) : Bool :=
  !s.toList.isEmpty && s.toList.all Char.isDigit

/-- Does `hay` start with `needle` (character lists)? -/
def listStartsWith : List Char → List Char → Bool
  | [], _ => true
  | _ :: _, [] => false
  | a :: ns, b :: hs => a == b && listStartsWith ns hs

/-- Does `hay` contain `needle` as a contiguous substring (Python `in`)? -/
def listContainsSub (needle : List Char) : List Char → Bool
  | [] => listStartsWith needle []
  | b :: hs => listStartsWith needle (b :: hs) || listContainsSub needle hs

/-- Python `needle in hay` on strings. -/
def strContainsSub (hay needle : String) : Bool :=
  listContainsSub needle.toList hay.toList

/-- Python slicing `s[:n]`. -/
def strTake (s : String) (n : Nat) : String :=
  String.mk (s.toList.take n)

/-- Python slicing `s[1:]`. -/
def strDrop1 (s : String) : String :=
  String.mk (s.toList.drop 1)

/-- The apostrophe character. -/
def apos : Char := Char.ofNat 39

/-- Does the string start with an apostrophe (Python `s.startswith("'")`)? -/
def startsWithApos (s : String) : Bool :=
  match s.toList with
  | [] => false
  | c :: _ => c == apos

/-- Numeric value of a decimal digit character. -/
def digitVal (c : Char) : Nat := c.toNat - 48

/-- Python `int` on a digit string. -/
def strToNat (s : String) : Nat :=
  s.toList.foldl (fun n c => 10 * n + digitVal c) 0

/-! ## Normalizer (`normalize_gender`, `normalize_school`,
`normalize_class_year` from the source) -/

/-- `normalize_gender`: case-insensitive match to F/M, else `none`.
A `none` argument models a pandas NA value. -/
def normalize_gender (genderStr : Option String) : Option String :=
  match genderStr with
  | none => none
  | some g =>
    let gl := pyStrip (pyLower g)
    if gl ∈ ["f", "female", "woman", "girl"] then some "F"
    else if gl ∈ ["m", "male", "man", "boy"] then some "M"
    else none

/-- The email-domain branch of `normalize_school` (lines 157-165): harvard
and college.harvard domains first, then mit, then any other `.edu`;
an empty or absent email yields no match. -/
def schoolFromEmail (emailStr : Option String) : Option String :=
  match emailStr with
  | none => none
  | some e =>
    if e = "" then none
    else
      let el := pyLower e
      if strContainsSub el "@harvard.edu" || strContainsSub el "@college.harvard.edu" then
        some "harvard"
      else if strContainsSub el "@mit.edu" then some "mit"
      else if strContainsSub el ".edu" then some "other"
      else none

/-- `normalize_school`: email domain first, then the free-text school
string with the business-school exception. -/
def normalize_school (schoolStr : Option String) (emailStr : Option String) :
    Option String :=
  match schoolFromEmail emailStr with
  | some r => some r
  | none =>
    match schoolStr with
    | none => none
    | some s =>
      let sl := pyLower s
      if strContainsSub sl "harvard" then
        if !strContainsSub sl "business" && !strContainsSub sl "hbs" then
          some "harvard"
        else some "other"
      else if strContainsSub sl "mit" then some "mit"
      else if sl ≠ "" then some "other"
      else none

/-- The academic-year anchor of `normalize_class_year`:
`now.year if now.month >= 9 else now.year - 1`. -/
def acadAnchor (nowYear : Int) (nowMonth : Nat) : Int :=
  if 9 ≤ nowMonth then nowYear else nowYear - 1

/-- `normalize_class_year`: bare 4-digit year, apostrophe + digits, or
grade-level keywords relative to the academic-year anchor.  The current
date is passed explicitly (the source reads `datetime.now()`). -/
def normalize_class_year (nowYear : Int) (nowMonth : Nat)
    (yearStr : Option String) : Option Int :=
  match yearStr with
  | none => none
  | some raw =>
    let s := pyStrip (pyLower raw)
    if pyIsDigit s && (s.length == 4) then
      some (Int.ofNat (strToNat s))
    else if startsWithApos s && pyIsDigit (strDrop1 s) then
      some (2000 + Int.ofNat (strToNat (strDrop1 s)))
    else
      let currentYear := acadAnchor nowYear nowMonth
      if strContainsSub s "freshman" || strContainsSub s "first" ||
          strContainsSub s "1st" then
        some (currentYear + 4)
      else if strContainsSub s "sophomore" || strContainsSub s "second" ||
          strContainsSub s "2nd" then
        some (currentYear + 3)
      else if strContainsSub s "junior" || strContainsSub s "third" ||
          strContainsSub s "3rd" then
        some (currentYear + 2)
      else if strContainsSub s "senior" || strContainsSub s "fourth" ||
          strContainsSub s "4th" then
        some (currentYear + 1)
      else none

/-! ## Data model: rows of the people / events / attendance / invitetokens
tables -/

/-- A row of the `people` table.  Names are modelled as present strings
(the matching code dereferences them unconditionally). -/
structure Person where
  id : Nat
  firstName : String
  lastName : String
  preferredName : Option String
  gender : Option String
  classYear : Option Int
  school : Option String
  schoolEmail : Option String
  personalEmail : Option String
  phoneNumber : Option String
  referralCount : Nat
  eventAttendanceCount : Nat
deriving DecidableEq

/-- A row of the `events` table (the fields this engine touches). -/
structure EventRow where
  id : Nat
  startDatetime : Int
  attendance : Nat
deriving DecidableEq

/-- A row of the `attendance` table. -/
structure AttRow where
  personId : Nat
  eventId : Nat
  rsvp : Bool
  approved : Bool
  checkedIn : Bool
  rsvpDatetime : Option Int
  isFirstEvent : Bool
  inviteTokenId : Nat
deriving DecidableEq

/-- A row of the `invitetokens` table. -/
structure TokenRow where
  id : Nat
  eventId : Nat
  category : String
  value : String
deriving DecidableEq

/-! ## TokenRegistry (`find_or_create_invite_token`) -/

/-- The generic tracking codes of `find_or_create_invite_token`. -/
def generic_codes : List String :=
  ["default", "emailreferral", "email", "instagram", "facebook"]

/-- The tracking value after the defaulting, strip and 100-character
truncation of lines 727-730 (an absent or falsy-empty value becomes
`"default"`). -/
def processedTracking (trackingLink : Option String) : String :=
  strTake (pyStrip (match trackingLink with
    | none => "default"
    | some s => if s = "" then "default" else s)) 100

/-- Lines 727-738 of the source: process the tracking link, then rewrite
generic codes to the sentinel with category `"mailing list"`.  Returns
(value, category). -/
def tokenValCat (trackingLink : Option String) : String × String :=
  if generic_codes.contains (pyLower (processedTracking trackingLink)) then
    ("default", "mailing list")
  else (processedTracking trackingLink, "personal outreach")

/-- `find_or_create_invite_token`: look up the (event_id, value) pair and
only insert when absent.  The state is the token table plus the next
fresh id; the returned `Nat` is the token id handed back to the caller. -/
def find_or_create_invite_token (tokens : List TokenRow) (nextId : Nat)
    (eventId : Nat) (trackingLink : Option String) :
    (List TokenRow × Nat) × Nat :=
  match tokens.find? (fun t =>
      t.eventId == eventId && t.value == (tokenValCat trackingLink).1) with
  | some t => ((tokens, nextId), t.id)
  | none =>
    ((tokens ++ [⟨nextId, eventId, (tokenValCat trackingLink).2,
        (tokenValCat trackingLink).1⟩], nextId + 1), nextId)

/-! ## Matcher (`fuzzy_match_name`)

`difflib.SequenceMatcher(None, a, b).ratio()` is a library call; it is
abstracted as a parameter `sim` returning an exact rational in [0,1]. -/

/-- `FUZZY_MATCH_THRESHOLD = 0.80`. -/
def FUZZY_MATCH_THRESHOLD : ℚ := 4/5

/-- The per-candidate average of the first-name and last-name similarity
(lines 520-526 of the source; both sides lower-cased). -/
def avgNameSim (sim : String → String → ℚ) (first last : String)
    (p : Person) : ℚ :=
  (sim (pyLower first) (pyLower p.firstName) +
    sim (pyLower last) (pyLower p.lastName)) / 2

/-- The `matches` list of `fuzzy_match_name`: candidates whose average
similarity reaches the 0.80 threshold, as (person id, average) pairs. -/
def fuzzyShortlist (sim : String → String → ℚ) (people : List Person)
    (first last : String) : List (Nat × ℚ) :=
  people.filterMap (fun p =>
    if FUZZY_MATCH_THRESHOLD ≤ avgNameSim sim first last p then
      some (p.id, avgNameSim sim first last p)
    else none)

/-- Head of the shortlist after the stable descending sort on the average:
the element with the greatest average, earliest entry winning ties. -/
def maxBySnd : List (Nat × ℚ) → Option (Nat × ℚ)
  | [] => none
  | x :: xs =>
    match maxBySnd xs with
    | none => some x
    | some y => if y.2 ≤ x.2 then some x else some y

/-- `fuzzy_match_name`: empty-name guard, strip/title the inputs, shortlist
at 0.80, and accept the best candidate only at 0.90 or above. -/
def fuzzy_match_name (sim : String → String → ℚ) (people : List Person)
    (firstName lastName : String) : Option Nat :=
  if firstName = "" ∨ lastName = "" then none
  else
    match maxBySnd (fuzzyShortlist sim people
        (pyTitle (pyStrip firstName)) (pyTitle (pyStrip lastName))) with
    | none => none
    | some best => if 9/10 ≤ best.2 then some best.1 else none

/-! ## PersonStore (`update_contact_info`) -/

/-- SQL `COALESCE(stored, incoming)`. -/
def coalesce (stored incoming : Option String) : Option String :=
  match stored with
  | some v => some v
  | none => incoming

/-- `update_contact_info`: fetch the person, null-coalesce the three
contact fields, and report whether any field went from NULL to a value. -/
def update_contact_info (people : List Person) (personId : Nat)
    (schoolEmail personalEmail phone : Option String) : List Person × Bool :=
  match people.find? (fun p => p.id == personId) with
  | none => (people, false)
  | some cur =>
    let people' := people.map (fun p =>
      if p.id == personId then
        { p with
            schoolEmail := coalesce p.schoolEmail schoolEmail,
            personalEmail := coalesce p.personalEmail personalEmail,
            phoneNumber := coalesce p.phoneNumber phone }
      else p)
    let updated :=
      (cur.schoolEmail.isNone && schoolEmail.isSome) ||
      (cur.personalEmail.isNone && personalEmail.isSome) ||
      (cur.phoneNumber.isNone && phone.isSome)
    (people', updated)

/-! ## ReferralAttributor (the increment at lines 950-957) -/

/-- The referral-count increment of `process_event_csv`: only applied when
a referrer was resolved (a truthy id in Python, hence nonzero) and differs
from the attendee. -/
def creditReferral (people : List Person) (referrerId : Option Nat)
    (personId : Nat) : List Person :=
  match referrerId with
  | none => people
  | some rid =>
    if rid ≠ 0 ∧ rid ≠ personId then
      people.map (fun p =>
        if p.id == rid then { p with referralCount := p.referralCount + 1 }
        else p)
    else people

/-! ## AttendanceRecorder (`create_attendance_record` and the aggregate
recomputations) -/

/-- The fields of a CSV row that `create_attendance_record` reads
(`Order Status`, `Tickets Scanned`, `Order Date/Time`, `Tracking Link`);
`none` models a pandas NA. -/
structure CsvRow where
  approvedStatus : Option String
  checkedInValue : Option String
  rsvpDatetimeStr : Option String
  trackingLink : Option String
deriving DecidableEq

/-- `rsvp = approved_status is not None`. -/
def rowRsvp (row : CsvRow) : Bool := row.approvedStatus.isSome

/-- `approved = str(approved_status).lower() == 'completed' if
approved_status else False`. -/
def rowApproved (row : CsvRow) : Bool :=
  match row.approvedStatus with
  | none => false
  | some s => if s = "" then false else pyLower s == "completed"

/-- `checked_in = str(checked_in_value).lower() in ['1','1.0','true','yes']
if checked_in_value else False`. -/
def rowCheckedIn (row : CsvRow) : Bool :=
  match row.checkedInValue with
  | none => false
  | some s =>
    if s = "" then false
    else ["1", "1.0", "true", "yes"].contains (pyLower s)

/-- Best-effort RSVP datetime parse; `pandas.to_datetime` is abstracted as
a parameter, unparsable values coerce to `none`. -/
def rowRsvpDatetime (pdToDatetime : String → Option Int) (row : CsvRow) :
    Option Int :=
  match row.rsvpDatetimeStr with
  | none => none
  | some s => if s = "" then none else pdToDatetime s

/-- Does the attendance table already hold the (person_id, event_id) pair? -/
def pairExists (att : List AttRow) (personId eventId : Nat) : Bool :=
  att.any (fun a => a.personId == personId && a.eventId == eventId)

/-- The `INSERT ... ON CONFLICT (person_id, event_id) DO NOTHING` of
`create_attendance_record`; `is_first_event` is inserted as FALSE. -/
def insertAttendance (att : List AttRow) (personId eventId : Nat)
    (rsvp approved checkedIn : Bool) (rsvpDatetime : Option Int)
    (inviteTokenId : Nat) : List AttRow :=
  if pairExists att personId eventId then att
  else att ++ [⟨personId, eventId, rsvp, approved, checkedIn, rsvpDatetime,
    false, inviteTokenId⟩]

/-- `start_datetime` of an event id, `none` when the event row is absent
(the SQL join then drops the attendance row). -/
def eventStart (events : List EventRow) (eventId : Nat) : Option Int :=
  (events.find? (fun e => e.id == eventId)).map (fun e => e.startDatetime)

/-- The join of the earliest-event query: the person's checked-in
attendance rows that have an event row, as (event id, start time) pairs. -/
def checkedInJoined (events : List EventRow) (att : List AttRow)
    (personId : Nat) : List (Nat × Int) :=
  att.filterMap (fun a =>
    if a.personId == personId && a.checkedIn then
      (eventStart events a.eventId).map (fun s => (a.eventId, s))
    else none)

/-- `ORDER BY e.start_datetime ASC LIMIT 1`: a pair with the least start
time (the earliest-scanned one on ties). -/
def minBySnd : List (Nat × Int) → Option (Nat × Int)
  | [] => none
  | x :: xs =>
    match minBySnd xs with
    | none => some x
    | some y => if x.2 ≤ y.2 then some x else some y

/-- Event id of the person's earliest checked-in event (lines 820-828). -/
def earliestCheckedInEvent (events : List EventRow) (att : List AttRow)
    (personId : Nat) : Option Nat :=
  (minBySnd (checkedInJoined events att personId)).map (fun x => x.1)

/-- The two UPDATEs of lines 834-845: set `is_first_event` TRUE on the
earliest event's row, then FALSE on every other row of the person. -/
def setFirstEventFlags (att : List AttRow) (personId eventId : Nat) :
    List AttRow :=
  (att.map (fun a =>
    if a.personId == personId && a.eventId == eventId then
      { a with isFirstEvent := true }
    else a)).map (fun a =>
    if a.personId == personId && !(a.eventId == eventId) then
      { a with isFirstEvent := false }
    else a)

/-- The full first-event recomputation run after a checked-in insert. -/
def recomputeFirstEvent (events : List EventRow) (att : List AttRow)
    (personId : Nat) : List AttRow :=
  match earliestCheckedInEvent events att personId with
  | some eventId => setFirstEventFlags att personId eventId
  | none => att

/-- The attendance-table-plus-token-table slice of the database state that
`create_attendance_record` reads and writes. -/
structure IngestState where
  att : List AttRow
  tokens : List TokenRow
  nextTokenId : Nat
deriving DecidableEq

/-- `create_attendance_record`: parse the row's booleans and datetime,
resolve the invite token, insert idempotently, and recompute the
first-event flag when the incoming row is checked in.  Returns the new
state and the `(tracking_link, checked_in)` pair the source returns. -/
def create_attendance_record (pdToDatetime : String → Option Int)
    (events : List EventRow) (st : IngestState) (personId eventId : Nat)
    (row : CsvRow) : IngestState × (Option String × Bool) :=
  let checkedIn := rowCheckedIn row
  let tokRes := find_or_create_invite_token st.tokens st.nextTokenId eventId
    row.trackingLink
  let att1 := insertAttendance st.att personId eventId (rowRsvp row)
    (rowApproved row) checkedIn (rowRsvpDatetime pdToDatetime row) tokRes.2
  let att2 := if checkedIn then recomputeFirstEvent events att1 personId
    else att1
  (⟨att2, tokRes.1.1, tokRes.1.2⟩, (row.trackingLink, checkedIn))

/-! ## Aggregate recomputation (`update_event_attendance_count`,
`update_person_attendance_counts`) -/

/-- `COUNT(*) FROM attendance WHERE event_id = ? AND checked_in = TRUE`. -/
def countCheckedInForEvent (att : List AttRow) (eventId : Nat) : Nat :=
  (att.filter (fun a => a.eventId == eventId && a.checkedIn)).length

/-- `COUNT(*) FROM attendance WHERE person_id = ? AND checked_in = TRUE`. -/
def countCheckedInForPerson (att : List AttRow) (personId : Nat) : Nat :=
  (att.filter (fun a => a.personId == personId && a.checkedIn)).length

/-- The UPDATE of `update_event_attendance_count` on the events table. -/
def applyEventCount (events : List EventRow) (att : List AttRow)
    (eventId : Nat) : List EventRow :=
  events.map (fun e =>
    if e.id == eventId then
      { e with attendance := countCheckedInForEvent att eventId }
    else e)

/-- The UPDATE of `update_person_attendance_counts` on the people table:
every person with an attendance row for this event gets their checked-in
count recomputed across all events. -/
def applyPersonCounts (people : List Person) (att : List AttRow)
    (eventId : Nat) : List Person :=
  people.map (fun p =>
    if att.any (fun a => a.eventId == eventId && a.personId == p.id) then
      { p with eventAttendanceCount := countCheckedInForPerson att p.id }
    else p)

/-! ## The batch driver (attendance-recording portion of
`process_event_csv`) -/

/-- The whole database state the attendance batch touches. -/
structure DB where
  people : List Person
  events : List EventRow
  att : List AttRow
  tokens : List TokenRow
  nextTokenId : Nat
deriving DecidableEq

/-- One loop iteration's attendance work: run `create_attendance_record`
for an already-resolved person id and keep the resulting state. -/
def ingestRow (pdToDatetime : String → Option Int) (events : List EventRow)
    (eventId : Nat) (st : IngestState) (pr : Nat × CsvRow) : IngestState :=
  (create_attendance_record pdToDatetime events st pr.1 eventId pr.2).1

/-- Fold `create_attendance_record` over the batch's rows in input order. -/
def ingestFold (pdToDatetime : String → Option Int) (events : List EventRow)
    (eventId : Nat) (st : IngestState) (rows : List (Nat × CsvRow)) :
    IngestState :=
  rows.foldl (ingestRow pdToDatetime events eventId) st

/-- `update_event_attendance_count` at the database level. -/
def update_event_attendance_count (db : DB) (eventId : Nat) : DB :=
  { db with events := applyEventCount db.events db.att eventId }

/-- `update_person_attendance_counts` at the database level. -/
def update_person_attendance_counts (db : DB) (eventId : Nat) : DB :=
  { db with people := applyPersonCounts db.people db.att eventId }

/-- The attendance-recording portion of `process_event_csv` for one
event: every row (with its resolved person id) goes through
`create_attendance_record`, then both derived aggregates are recomputed.
Person resolution and referral crediting live in their own definitions. -/
def runAttendanceBatch (pdToDatetime : String → Option Int) (eventId : Nat)
    (db : DB) (rows : List (Nat × CsvRow)) : DB :=
  let st := ingestFold pdToDatetime db.events eventId
    ⟨db.att, db.tokens, db.nextTokenId⟩ rows
  let db1 : DB :=
    { db with
        att := st.att
        tokens := st.tokens
        nextTokenId := st.nextTokenId }
  update_person_attendance_counts
    (update_event_attendance_count db1 eventId) eventId

/-! ## Derived notions used by the verification -/

/-- The (event_id, value) key of each invite-token row; the table's unique
constraint says this list has no duplicates. -/
def tokenKeys (tokens : List TokenRow) : List (Nat × String) :=
  tokens.map (fun t => (t.eventId, t.value))

/-- Run a sequence of `find_or_create_invite_token` calls, threading the
token table and the fresh-id counter. -/
def focFold (st : List TokenRow × Nat)
    (calls : List (Nat × Option String)) : List TokenRow × Nat :=
  calls.foldl
    (fun st c => (find_or_create_invite_token st.1 st.2 c.1 c.2).1) st

/-- No stored token value is a generic code other than the sentinel, and
sentinel rows carry the mailing-list category. -/
def TokInv (tokens : List TokenRow) : Prop :=
  ∀ t ∈ tokens, generic_codes.contains (pyLower t.value) = true →
    t.value = "default" ∧ t.category = "mailing list"

/-- The (person_id, event_id) key of each attendance row; the table's
unique constraint says this list has no duplicates. -/
def attPairs (att : List AttRow) : List (Nat × Nat) :=
  att.map (fun a => (a.personId, a.eventId))

/-- First-event correctness for one person: exactly one of their
attendance rows is flagged, and the flagged row is checked in with a start
time no later than any of their checked-in rows. -/
def C1FirstEvent (events : List EventRow) (att : List AttRow) (pid : Nat) :
    Prop :=
  (att.filter (fun a => a.personId == pid && a.isFirstEvent)).length = 1 ∧
  ∀ a ∈ att, a.personId = pid → a.isFirstEvent = true →
    a.checkedIn = true ∧
    ∀ b ∈ att, b.personId = pid → b.checkedIn = true →
      ∀ sa sb, eventStart events a.eventId = some sa →
        eventStart events b.eventId = some sb → sa ≤ sb

/-- The observable contract of `fuzzy_match_name`: shortlisting happens
exactly at the 0.80 threshold, a returned match is a highest-average
candidate at 0.90 or above, and a match is returned exactly when some
candidate reaches 0.90. -/
def C3MatchSpec (sim : String → String → ℚ) (people : List Person)
    (firstName lastName : String) : Prop :=
  let f := pyTitle (pyStrip firstName)
  let l := pyTitle (pyStrip lastName)
  (∀ p ∈ people,
    ((p.id, avgNameSim sim f l p) ∈ fuzzyShortlist sim people f l ↔
      FUZZY_MATCH_THRESHOLD ≤ avgNameSim sim f l p)) ∧
  (∀ pid, fuzzy_match_name sim people firstName lastName = some pid →
    ∃ p ∈ people, p.id = pid ∧ 9/10 ≤ avgNameSim sim f l p ∧
      ∀ q ∈ people, avgNameSim sim f l q ≤ avgNameSim sim f l p) ∧
  ((fuzzy_match_name sim people firstName lastName).isSome = true ↔
    ∃ p ∈ people, 9/10 ≤ avgNameSim sim f l p)

/-- Contact-merge retention: any contact value present before the merge is
still present, unchanged, afterwards (positionally). -/
def C6Retention (people result : List Person) : Prop :=
  ∀ i p q, people.get? i = some p → result.get? i = some q →
    (∀ v, p.schoolEmail = some v → q.schoolEmail = some v) ∧
    (∀ v, p.personalEmail = some v → q.personalEmail = some v) ∧
    (∀ v, p.phoneNumber = some v → q.phoneNumber = some v)

/-- The pointwise effect on one attendance row of the two flag UPDATEs of
`create_attendance_record`: for the person's rows the flag becomes "is
this the earliest event", other rows are untouched. -/
def flagAssign (personId eventId : Nat) (a : AttRow) : AttRow :=
  if a.personId == personId then { a with isFirstEvent := a.eventId == eventId }
  else a

/-- Does the token table already hold the key this tracking value resolves
to for this event? -/
def tokenKeyExists (tokens : List TokenRow) (eventId : Nat)
    (tracking : Option String) : Bool :=
  tokens.any (fun t =>
    t.eventId == eventId && t.value == (tokenValCat tracking).1)

/-- A processed row is settled in a state: its attendance pair and invite
token exist, and (for checked-in rows) the first-event recomputation for
its person is already a fixpoint.  Every row that
`create_attendance_record` has processed is settled, and a settled row's
re-processing is a no-op — the heart of re-run idempotence. -/
def goodRow (events : List EventRow) (st : IngestState) (eventId : Nat)
    (pr : Nat × CsvRow) : Prop :=
  pairExists st.att pr.1 eventId = true ∧
  tokenKeyExists st.tokens eventId pr.2.trackingLink = true ∧
  (rowCheckedIn pr.2 = true →
    recomputeFirstEvent events st.att pr.1 = st.att)

/-! ## C4: the referral-column fuzzy match -/

/-- C4: `process_event_csv` resolves the free-text referral column with
`fuzzy_match_name(cursor, referrer_name, "")`, but `fuzzy_match_name`
rejects an empty last name up front, so the referral-column signal can
never produce a referrer: for every similarity function, person table and
referrer string the call returns `none`. -/
theorem c4_referral_column_match_dead (sim : String → String → ℚ)
    (people : List Person) (referrerName : String) :
    fuzzy_match_name sim people referrerName "" = none := by
  unfold fuzzy_match_name
  simp

/-! ## C5: school normalization precedence -/

/-- C5 counterexample: an email containing both `@harvard.edu` and
`@mit.edu` as substrings defeats the claim "any input whose email contains
'@mit.edu' normalizes to 'mit' regardless of free text": the harvard
branch is checked first. -/
theorem c5_school_precedence_cex :
    strContainsSub (pyLower "a@harvard.edu@mit.edu") "@mit.edu" = true ∧
    normalize_school (some "Harvard Business School")
        (some "a@harvard.edu@mit.edu") = some "harvard" ∧
    normalize_school (some "Harvard Business School")
        (some "a@harvard.edu@mit.edu") ≠ some "mit" :=
  ⟨rfl, rfl, by decide⟩

/-- C5 (amended): an email containing `@mit.edu` but neither
`@harvard.edu` nor `@college.harvard.edu` normalizes to `mit` regardless
of the free-text school string; and with no applicable email, a free-text
school containing `harvard` together with `business` or `hbs` normalizes
to `other`. -/
theorem c5_school_precedence :
    (∀ (schoolStr : Option String) (email : String),
      strContainsSub (pyLower email) "@mit.edu" = true →
      strContainsSub (pyLower email) "@harvard.edu" = false →
      strContainsSub (pyLower email) "@college.harvard.edu" = false →
      normalize_school schoolStr (some email) = some "mit") ∧
    (∀ (emailStr : Option String) (school : String),
      schoolFromEmail emailStr = none →
      strContainsSub (pyLower school) "harvard" = true →
      (strContainsSub (pyLower school) "business" = true ∨
        strContainsSub (pyLower school) "hbs" = true) →
      normalize_school (some school) emailStr = some "other") := by
  constructor
  · intro schoolStr email hmit hh hch
    have he : email ≠ "" := by
      intro h
      rw [h] at hmit
      exact absurd hmit (by decide)
    simp only [normalize_school, schoolFromEmail, if_neg he, hmit, hh, hch]
    simp
  · intro emailStr school hse hharv hbiz
    simp only [normalize_school, hse, hharv]
    rcases hbiz with hb | hb <;> simp [hb]

/-- C5 witness: the amended statement at concrete inputs, including the
spec's own examples. -/
theorem c5_school_precedence_w :
    normalize_school (some "Harvard Business School") (some "x@mit.edu") =
      some "mit" ∧
    normalize_school (some "Harvard Business School") none = some "other" :=
  ⟨c5_school_precedence.1 (some "Harvard Business School") "x@mit.edu"
      rfl rfl rfl,
    c5_school_precedence.2 none "Harvard Business School" rfl rfl
      (Or.inl rfl)⟩

/-! ## C7: referral crediting -/

/-- C7: the referral-count increment happens only when a referrer was
resolved and differs from the attendee, and then it is exactly +1 on that
referrer's row; a self-referral (or no referrer) changes nothing. -/
theorem c7_referral_credit (people : List Person) (referrerId : Option Nat)
    (personId : Nat) :
    (creditReferral people referrerId personId).length = people.length ∧
    (referrerId = none → creditReferral people referrerId personId = people) ∧
    (∀ rid, referrerId = some rid → rid = personId →
      creditReferral people referrerId personId = people) ∧
    (∀ i p q, people.get? i = some p →
      (creditReferral people referrerId personId).get? i = some q →
      q = p ∨ ∃ rid, referrerId = some rid ∧ rid ≠ personId ∧ p.id = rid ∧
        q = { p with referralCount := p.referralCount + 1 }) := by
  refine ⟨?_, ?_, ?_, ?_⟩
  · cases referrerId with
    | none => rfl
    | some rid =>
      by_cases h : rid ≠ 0 ∧ rid ≠ personId
      · simp [creditReferral, h]
      · simp [creditReferral, if_neg h]
  · intro h
    subst h
    rfl
  · intro rid hsome heq
    subst hsome
    have : ¬(rid ≠ 0 ∧ rid ≠ personId) := fun hc => hc.2 heq
    simp [creditReferral, if_neg this]
  · intro i p q hp hq
    cases referrerId with
    | none =>
      left
      simp only [creditReferral] at hq
      rw [hp] at hq
      exact (Option.some_inj.mp hq).symm
    | some rid =>
      by_cases h : rid ≠ 0 ∧ rid ≠ personId
      · simp only [creditReferral, if_pos h, List.get?_map, hp,
          Option.map_some'] at hq
        by_cases hid : p.id == rid
        · right
          exact ⟨rid, rfl, h.2, by simpa using hid,
            by rw [if_pos hid] at hq; exact (Option.some_inj.mp hq).symm⟩
        · left
          rw [if_neg hid] at hq
          exact (Option.some_inj.mp hq).symm
      · left
        simp only [creditReferral, if_neg h] at hq
        rw [hp] at hq
        exact (Option.some_inj.mp hq).symm

/-- C7 witness: a concrete resolved referrer differing from the attendee
is credited exactly +1; the self-referral case changes nothing. -/
theorem c7_referral_credit_w :
    creditReferral
        [⟨7, "A", "B", none, none, none, none, none, none, none, 3, 0⟩]
        (some 7) 7 =
      [⟨7, "A", "B", none, none, none, none, none, none, none, 3, 0⟩] ∧
    (creditReferral
        [⟨7, "A", "B", none, none, none, none, none, none, none, 3, 0⟩]
        (some 7) 9).length = 1 :=
  ⟨(c7_referral_credit _ (some 7) 7).2.2.1 7 rfl rfl,
    (c7_referral_credit
      [⟨7, "A", "B", none, none, none, none, none, none, none, 3, 0⟩]
      (some 7) 9).1⟩

/-! ## C8: class-year normalization -/

/-- C8: a bare 4-digit year parses as that integer; an apostrophe plus a
2-digit year parses as 2000 + digits; the grade-level keywords resolve
against the September-anchored academic year (freshman → anchor+4, …,
senior → anchor+1), so "freshman" in October of year Y gives Y+4 and in
February gives (Y−1)+4; anything else is unknown. -/
theorem c8_class_year :
    (∀ (y : Int) (m : Nat) (raw : String),
      pyIsDigit (pyStrip (pyLower raw)) = true →
      (pyStrip (pyLower raw)).length = 4 →
      normalize_class_year y m (some raw) =
        some (Int.ofNat (strToNat (pyStrip (pyLower raw))))) ∧
    (∀ (y : Int) (m : Nat) (raw : String) (d1 d2 : Char),
      pyStrip (pyLower raw) = String.mk [apos, d1, d2] →
      d1.isDigit = true → d2.isDigit = true →
      normalize_class_year y m (some raw) =
        some (2000 + Int.ofNat (strToNat (String.mk [d1, d2])))) ∧
    (∀ (y : Int) (m : Nat),
      normalize_class_year y m (some "freshman") = some (acadAnchor y m + 4) ∧
      normalize_class_year y m (some "sophomore") = some (acadAnchor y m + 3) ∧
      normalize_class_year y m (some "junior") = some (acadAnchor y m + 2) ∧
      normalize_class_year y m (some "senior") = some (acadAnchor y m + 1)) ∧
    (∀ y : Int, normalize_class_year y 10 (some "freshman") = some (y + 4)) ∧
    (∀ y : Int, normalize_class_year y 2 (some "freshman") = some (y - 1 + 4)) ∧
    (∀ (y : Int) (m : Nat) (raw : String),
      (pyIsDigit (pyStrip (pyLower raw)) &&
        ((pyStrip (pyLower raw)).length == 4)) = false →
      (startsWithApos (pyStrip (pyLower raw)) &&
        pyIsDigit (strDrop1 (pyStrip (pyLower raw)))) = false →
      (∀ kw ∈ ["freshman", "first", "1st", "sophomore", "second", "2nd",
          "junior", "third", "3rd", "senior", "fourth", "4th"],
        strContainsSub (pyStrip (pyLower raw)) kw = false) →
      normalize_class_year y m (some raw) = none) := by
  refine ⟨?_, ?_, fun y m => ⟨rfl, rfl, rfl, rfl⟩, fun y => rfl, fun y => rfl, ?_⟩
  · intro y m raw h1 h2
    simp [normalize_class_year, h1, h2]
  · intro y m raw d1 d2 hs h1 h2
    have htl : (String.mk [apos, d1, d2]).toList = [apos, d1, d2] := rfl
    have hA : pyIsDigit (String.mk [apos, d1, d2]) = false := by
      simp only [pyIsDigit, htl]
      have : apos.isDigit = false := by decide
      simp [this]
    have hB : startsWithApos (String.mk [apos, d1, d2]) = true := by
      simp [startsWithApos, htl]
    have hC : strDrop1 (String.mk [apos, d1, d2]) = String.mk [d1, d2] := rfl
    have hD : pyIsDigit (String.mk [d1, d2]) = true := by
      simp only [pyIsDigit]
      have : (String.mk [d1, d2]).toList = [d1, d2] := rfl
      simp [this, h1, h2]
    simp [normalize_class_year, hs, hA, hB, hC, hD]
  · intro y m raw h1 h2 h3
    have hf : ∀ kw ∈ (["freshman", "first", "1st", "sophomore", "second",
        "2nd", "junior", "third", "3rd", "senior", "fourth", "4th"] :
        List String),
        strContainsSub (pyStrip (pyLower raw)) kw = false := h3
    simp only [normalize_class_year, h1, h2, Bool.false_eq_true, if_false]
    simp [hf "freshman" (by simp), hf "first" (by simp), hf "1st" (by simp),
      hf "sophomore" (by simp), hf "second" (by simp), hf "2nd" (by simp),
      hf "junior" (by simp), hf "third" (by simp), hf "3rd" (by simp),
      hf "senior" (by simp), hf "fourth" (by simp), hf "4th" (by simp)]

/-- C8 witness: the parse at concrete dates, including the spec's
October/February freshman examples. -/
theorem c8_class_year_w :
    normalize_class_year 2025 10 (some " 2027 ") = some 2027 ∧
    normalize_class_year 2025 3 (some "'27") = some 2027 ∧
    normalize_class_year 2026 2 (some "Freshman") = some 2029 ∧
    normalize_class_year 2026 10 (some "Freshman") = some 2030 ∧
    normalize_class_year 2025 3 (some "n/a") = none :=
  ⟨(c8_class_year.1 2025 10 " 2027 " (by decide) (by decide)).trans (by decide),
    (c8_class_year.2.1 2025 3 "'27" (Char.ofNat 50) (Char.ofNat 55) (by decide)
      (by decide) (by decide)).trans (by decide),
    (c8_class_year.2.2.2.2.1 2026).trans (by decide),
    (c8_class_year.2.2.2.1 2026).trans (by decide),
    c8_class_year.2.2.2.2.2 2025 3 "n/a" (by decide) (by decide)
      (by decide)⟩


/-! ## Token-registry lemmas -/

/-- Truncation really bounds the length. -/
theorem strTake_length_le (s : String) (n : Nat) :
    (strTake s n).length ≤ n := by
  have h : (strTake s n).length = (s.toList.take n).length := rfl
  rw [h, List.length_take]
  exact min_le_left _ _

/-- For a non-empty raw value the processed tracking value is just the
stripped, truncated string. -/
theorem processedTracking_some (s : String) (hs : s ≠ "") :
    processedTracking (some s) = strTake (pyStrip s) 100 := by
  simp [processedTracking, hs]

/-- `tokenValCat` either hits the generic branch and yields the sentinel
with the mailing-list category, or yields a value that is itself not a
generic code, with the personal-outreach category. -/
theorem tokenValCat_cases (tracking : Option String) :
    tokenValCat tracking = ("default", "mailing list") ∨
    (generic_codes.contains (pyLower (tokenValCat tracking).1) = false ∧
      (tokenValCat tracking).2 = "personal outreach") := by
  cases hg : generic_codes.contains (pyLower (processedTracking tracking)) with
  | true => exact Or.inl (by rw [tokenValCat, if_pos hg])
  | false =>
    right
    rw [tokenValCat, if_neg (by rw [hg]; exact Bool.false_ne_true)]
    exact ⟨hg, rfl⟩

/-- One `find_or_create_invite_token` call preserves the uniqueness of
(event_id, value) keys: it looks up before inserting. -/
theorem tokenKeys_nodup_step (tokens : List TokenRow)
    (nextId eventId : Nat) (tracking : Option String)
    (h : (tokenKeys tokens).Nodup) :
    (tokenKeys
      (find_or_create_invite_token tokens nextId eventId tracking).1.1).Nodup := by
  unfold find_or_create_invite_token
  rcases hfind : tokens.find?
      (fun t => t.eventId == eventId && t.value == (tokenValCat tracking).1)
    with _ | t
  · rw [hfind]
    simp only [tokenKeys, List.map_append, List.nodup_append, List.map_cons,
      List.map_nil]
    refine ⟨h, List.nodup_singleton _, ?_⟩
    intro k hk1 hk2
    simp only [List.mem_singleton] at hk2
    subst hk2
    rcases List.mem_map.mp hk1 with ⟨tok, htok, hkey⟩
    have hev : tok.eventId = eventId := congrArg Prod.fst hkey
    have hval : tok.value = (tokenValCat tracking).1 :=
      congrArg Prod.snd hkey
    exact List.find?_eq_none.mp hfind tok htok (by simp [hev, hval])
  · rw [hfind]
    exact h

/-- One `find_or_create_invite_token` call preserves the no-generic-text
invariant: inserted rows are either the sentinel with mailing-list
category or a non-generic value. -/
theorem tokInv_step (tokens : List TokenRow) (nextId eventId : Nat)
    (tracking : Option String) (h : TokInv tokens) :
    TokInv (find_or_create_invite_token tokens nextId eventId tracking).1.1 := by
  unfold find_or_create_invite_token
  rcases hfind : tokens.find?
      (fun t => t.eventId == eventId && t.value == (tokenValCat tracking).1)
    with _ | t
  · rw [hfind]
    intro tok htok hgen
    rcases List.mem_append.mp htok with hin | hnew
    · exact h tok hin hgen
    · simp only [List.mem_singleton] at hnew
      subst hnew
      rcases tokenValCat_cases tracking with hc | ⟨hc, _⟩
      · constructor
        · show (tokenValCat tracking).1 = "default"
          rw [hc]
        · show (tokenValCat tracking).2 = "mailing list"
          rw [hc]
      · have hgen2 : generic_codes.contains
            (pyLower (tokenValCat tracking).1) = true := hgen
        rw [hc] at hgen2
        cases hgen2
  · rw [hfind]
    exact h

/-! ## C9: invite-token registry -/

/-- C9: an absent tracking value defaults to the sentinel with
mailing-list category; values are truncated to 100 characters; the
category is mailing list exactly when the processed value is a generic
code (else the truncated value is kept under personal outreach); and the
look-up-before-insert discipline keeps at most one token row per distinct
value per event across any call sequence. -/
theorem c9_token_registry :
    tokenValCat none = ("default", "mailing list") ∧
    (∀ t : Option String, ((tokenValCat t).1).length ≤ 100) ∧
    (∀ s : String, s ≠ "" →
      ((tokenValCat (some s)).2 = "mailing list" ↔
        generic_codes.contains (pyLower (strTake (pyStrip s) 100)) = true)) ∧
    (∀ s : String, s ≠ "" →
      generic_codes.contains (pyLower (strTake (pyStrip s) 100)) = false →
      (tokenValCat (some s)).1 = strTake (pyStrip s) 100) ∧
    (∀ (tokens : List TokenRow) (nextId : Nat)
      (calls : List (Nat × Option String)),
      (tokenKeys tokens).Nodup →
      (tokenKeys (focFold (tokens, nextId) calls).1).Nodup) := by
  refine ⟨by decide, ?_, ?_, ?_, ?_⟩
  · intro t
    cases hg : generic_codes.contains (pyLower (processedTracking t)) with
    | true =>
      rw [tokenValCat, if_pos hg]
      decide
    | false =>
      rw [tokenValCat, if_neg (by rw [hg]; exact Bool.false_ne_true)]
      exact strTake_length_le _ 100
  · intro s hs
    have hp := processedTracking_some s hs
    cases hg : generic_codes.contains (pyLower (strTake (pyStrip s) 100)) with
    | true =>
      rw [tokenValCat, hp, if_pos hg]
      simp
    | false =>
      rw [tokenValCat, hp, if_neg (by rw [hg]; exact Bool.false_ne_true)]
      constructor
      · intro h
        have h2 : "personal outreach" = "mailing list" := h
        exact absurd h2 (by decide)
      · intro h
        exact absurd h (by decide)
  · intro s hs hg
    have hp := processedTracking_some s hs
    rw [tokenValCat, hp, if_neg (by rw [hg]; exact Bool.false_ne_true)]
  · intro tokens nextId calls
    induction calls generalizing tokens nextId with
    | nil => exact fun h => h
    | cons c cs ih =>
      intro h
      have hstep := tokenKeys_nodup_step tokens nextId c.1 c.2 h
      simpa [focFold, List.foldl_cons] using ih _ _ hstep

/-- C9 witness: repeated and defaulted calls on one event keep the key
set duplicate-free, and a generic value classifies as mailing list. -/
theorem c9_token_registry_w :
    (tokenKeys (focFold ([], 1)
      [(1, some "alice"), (1, some "alice"), (1, none)]).1).Nodup ∧
    (tokenValCat (some "Email")).2 = "mailing list" :=
  ⟨c9_token_registry.2.2.2.2 [] 1
      [(1, some "alice"), (1, some "alice"), (1, none)]
      (by simp [tokenKeys]),
    (c9_token_registry.2.2.1 "Email" (by decide)).mpr (by decide)⟩

/-! ## C10: generic codes collapse to the sentinel token -/

/-- C10: any tracking value whose processed form is a generic code is
rewritten to the literal `"default"` (category mailing list) before lookup
and insert; two generic values against the same event resolve to the same
token id; and across any call sequence no stored token value is a generic
code other than the sentinel itself, sentinel rows carrying the
mailing-list category. -/
theorem c10_generic_sentinel :
    (∀ s : String,
      generic_codes.contains
        (pyLower (strTake (pyStrip (if s = "" then "default" else s)) 100)) =
        true →
      tokenValCat (some s) = ("default", "mailing list")) ∧
    (∀ (tokens : List TokenRow) (nextId eventId : Nat)
      (g1 g2 : Option String),
      (tokenValCat g1).1 = "default" → (tokenValCat g2).1 = "default" →
      (find_or_create_invite_token
          (find_or_create_invite_token tokens nextId eventId g1).1.1
          (find_or_create_invite_token tokens nextId eventId g1).1.2
          eventId g2).2 =
        (find_or_create_invite_token tokens nextId eventId g1).2) ∧
    (∀ (tokens : List TokenRow) (nextId : Nat)
      (calls : List (Nat × Option String)),
      TokInv tokens → TokInv (focFold (tokens, nextId) calls).1) := by
  refine ⟨?_, ?_, ?_⟩
  · intro s hg
    rw [tokenValCat,
      if_pos (show generic_codes.contains
        (pyLower (processedTracking (some s))) = true from hg)]
  · intro tokens nextId eventId g1 g2 h1 h2
    unfold find_or_create_invite_token
    rw [h1, h2]
    rcases hfind : tokens.find?
        (fun t => t.eventId == eventId && t.value == "default")
      with _ | t
    · simp [List.find?_append, hfind, List.find?]
    · simp [hfind]
  · intro tokens nextId calls
    induction calls generalizing tokens nextId with
    | nil => exact fun h => h
    | cons c cs ih =>
      intro h
      have hstep := tokInv_step tokens nextId c.1 c.2 h
      simpa [focFold, List.foldl_cons] using ih _ _ hstep

/-- C10 witness: `Instagram` and `Email` both collapse to the sentinel and
share one token id on the same event, and the invariant holds after a
concrete call sequence. -/
theorem c10_generic_sentinel_w :
    tokenValCat (some "Instagram") = ("default", "mailing list") ∧
    (find_or_create_invite_token
        (find_or_create_invite_token [] 5 1 (some "Email")).1.1
        (find_or_create_invite_token [] 5 1 (some "Email")).1.2
        1 (some "Instagram")).2 =
      (find_or_create_invite_token [] 5 1 (some "Email")).2 ∧
    TokInv (focFold ([], 5) [(1, some "Email"), (2, some "hannah")]).1 :=
  ⟨c10_generic_sentinel.1 "Instagram" (by decide),
    c10_generic_sentinel.2.1 [] 5 1 (some "Email") (some "Instagram")
      (by decide) (by decide),
    c10_generic_sentinel.2.2 [] 5 [(1, some "Email"), (2, some "hannah")]
      (fun t ht => absurd ht (List.not_mem_nil t))⟩

/-! ## C6: contact merge -/

/-- With duplicate-free person ids, two members with equal ids are equal. -/
theorem person_eq_of_id_eq {people : List Person} {p q : Person}
    (hids : (people.map Person.id).Nodup) (hp : p ∈ people) (hq : q ∈ people)
    (heq : p.id = q.id) : p = q := by
  rcases List.get?_of_mem hp with ⟨i, hi⟩
  rcases List.get?_of_mem hq with ⟨j, hj⟩
  have hmi : (people.map Person.id).get? i = some p.id := by
    rw [List.get?_map, hi, Option.map_some']
  have hmj : (people.map Person.id).get? j = some q.id := by
    rw [List.get?_map, hj, Option.map_some']
  have hlen : i < (people.map Person.id).length := by
    rw [List.length_map]
    exact (List.get?_eq_some.mp hi).1
  have hij : i = j := by
    apply List.get?_inj hlen hids
    rw [hmi, hmj, heq]
  rw [hij] at hi
  rw [hi] at hj
  exact Option.some_inj.mp hj

/-- C6: the contact merge fills only fields that are currently NULL — any
stored value is retained unchanged — and it reports `true` exactly when
some field actually changed from NULL to a value. -/
theorem c6_contact_merge (people : List Person) (pid : Nat)
    (se pe ph : Option String)
    (hids : (people.map Person.id).Nodup) :
    ((update_contact_info people pid se pe ph).1.length = people.length) ∧
    C6Retention people (update_contact_info people pid se pe ph).1 ∧
    ((update_contact_info people pid se pe ph).2 = true ↔
      ∃ i p q, people.get? i = some p ∧
        (update_contact_info people pid se pe ph).1.get? i = some q ∧
        ((p.schoolEmail = none ∧ q.schoolEmail ≠ none) ∨
         (p.personalEmail = none ∧ q.personalEmail ≠ none) ∨
         (p.phoneNumber = none ∧ q.phoneNumber ≠ none))) := by
  unfold update_contact_info
  rcases hfind : people.find? (fun p => p.id == pid) with _ | cur
  · rw [hfind]
    refine ⟨rfl, ?_, ?_⟩
    · intro i p q hp hq
      rw [hp] at hq
      obtain rfl : p = q := Option.some_inj.mp hq
      exact ⟨fun v hv => hv, fun v hv => hv, fun v hv => hv⟩
    · constructor
      · intro h
        cases h
      · rintro ⟨i, p, q, hp, hq, hdis⟩
        rw [hp] at hq
        obtain rfl : p = q := Option.some_inj.mp hq
        rcases hdis with ⟨h1, h2⟩ | ⟨h1, h2⟩ | ⟨h1, h2⟩ <;> exact absurd h1 h2
  · rw [hfind]
    have hcurmem : cur ∈ people := List.mem_of_find?_eq_some hfind
    have hcurid : cur.id = pid := by
      have := List.find?_some hfind
      simpa using this
    refine ⟨by simp, ?_, ?_⟩
    · intro i p q hp hq
      have hq' : (people.map (fun p =>
          if p.id == pid then
            { p with
                schoolEmail := coalesce p.schoolEmail se,
                personalEmail := coalesce p.personalEmail pe,
                phoneNumber := coalesce p.phoneNumber ph }
          else p)).get? i = some q := hq
      rw [List.get?_map, hp, Option.map_some'] at hq'
      have hqp := Option.some_inj.mp hq'
      by_cases hpid : (p.id == pid) = true
      · rw [if_pos hpid] at hqp
        subst hqp
        refine ⟨?_, ?_, ?_⟩
        · intro v hv
          show coalesce p.schoolEmail se = some v
          rw [hv]
          rfl
        · intro v hv
          show coalesce p.personalEmail pe = some v
          rw [hv]
          rfl
        · intro v hv
          show coalesce p.phoneNumber ph = some v
          rw [hv]
          rfl
      · rw [if_neg hpid] at hqp
        subst hqp
        exact ⟨fun v hv => hv, fun v hv => hv, fun v hv => hv⟩
    · constructor
      · intro h
        have hb : (cur.schoolEmail.isNone && se.isSome) = true ∨
            (cur.personalEmail.isNone && pe.isSome) = true ∨
            (cur.phoneNumber.isNone && ph.isSome) = true := by
          simpa [Bool.or_eq_true, or_assoc] using h
        rcases List.get?_of_mem hcurmem with ⟨i, hi⟩
        have hqi : (people.map (fun p =>
            if p.id == pid then
              { p with
                  schoolEmail := coalesce p.schoolEmail se,
                  personalEmail := coalesce p.personalEmail pe,
                  phoneNumber := coalesce p.phoneNumber ph }
            else p)).get? i = some
            { cur with
                schoolEmail := coalesce cur.schoolEmail se,
                personalEmail := coalesce cur.personalEmail pe,
                phoneNumber := coalesce cur.phoneNumber ph } := by
          rw [List.get?_map, hi, Option.map_some', if_pos (by simp [hcurid])]
        refine ⟨i, cur, _, hi, hqi, ?_⟩
        rcases hb with hb | hb | hb
        · left
          rcases (Bool.and_eq_true _ _).mp hb with ⟨hn, hs⟩
          have hn' : cur.schoolEmail = none := Option.isNone_iff_eq_none.mp hn
          refine ⟨hn', ?_⟩
          show coalesce cur.schoolEmail se ≠ none
          rw [hn']
          show se ≠ none
          intro hcon
          rw [hcon] at hs
          cases hs
        · right
          left
          rcases (Bool.and_eq_true _ _).mp hb with ⟨hn, hs⟩
          have hn' : cur.personalEmail = none := Option.isNone_iff_eq_none.mp hn
          refine ⟨hn', ?_⟩
          show coalesce cur.personalEmail pe ≠ none
          rw [hn']
          show pe ≠ none
          intro hcon
          rw [hcon] at hs
          cases hs
        · right
          right
          rcases (Bool.and_eq_true _ _).mp hb with ⟨hn, hs⟩
          have hn' : cur.phoneNumber = none := Option.isNone_iff_eq_none.mp hn
          refine ⟨hn', ?_⟩
          show coalesce cur.phoneNumber ph ≠ none
          rw [hn']
          show ph ≠ none
          intro hcon
          rw [hcon] at hs
          cases hs
      · rintro ⟨i, p, q, hp, hq, hdis⟩
        have hq' : (people.map (fun p =>
            if p.id == pid then
              { p with
                  schoolEmail := coalesce p.schoolEmail se,
                  personalEmail := coalesce p.personalEmail pe,
                  phoneNumber := coalesce p.phoneNumber ph }
            else p)).get? i = some q := hq
        rw [List.get?_map, hp, Option.map_some'] at hq'
        have hqp := Option.some_inj.mp hq'
        by_cases hpid : (p.id == pid) = true
        · rw [if_pos hpid] at hqp
          subst hqp
          have hpmem : p ∈ people := List.get?_mem hp
          obtain rfl : p = cur :=
            person_eq_of_id_eq hids hpmem hcurmem
              (by rw [hcurid]; simpa using hpid)
          rcases hdis with ⟨h1, h2⟩ | ⟨h1, h2⟩ | ⟨h1, h2⟩
          · have h2' : coalesce p.schoolEmail se ≠ none := h2
            rw [h1] at h2'
            have hse : se ≠ none := h2'
            simp [h1, Option.ne_none_iff_isSome.mp hse]
          · have h2' : coalesce p.personalEmail pe ≠ none := h2
            rw [h1] at h2'
            have hpe2 : pe ≠ none := h2'
            simp [h1, Option.ne_none_iff_isSome.mp hpe2]
          · have h2' : coalesce p.phoneNumber ph ≠ none := h2
            rw [h1] at h2'
            have hph : ph ≠ none := h2'
            simp [h1, Option.ne_none_iff_isSome.mp hph]
        · rw [if_neg hpid] at hqp
          subst hqp
          rcases hdis with ⟨h1, h2⟩ | ⟨h1, h2⟩ | ⟨h1, h2⟩ <;> exact absurd h1 h2

/-- C6 witness: a person with a stored school email and no personal email
is merged with an incoming personal email — the flag reports a change and
the list keeps its shape. -/
theorem c6_contact_merge_w :
    ((update_contact_info
        [⟨1, "A", "B", none, none, none, none, some "a@x.edu", none, none,
          0, 0⟩] 1 none (some "b@y.com") none).1.length = 1) ∧
    (update_contact_info
        [⟨1, "A", "B", none, none, none, none, some "a@x.edu", none, none,
          0, 0⟩] 1 none (some "b@y.com") none).2 = true :=
  ⟨(c6_contact_merge
      [⟨1, "A", "B", none, none, none, none, some "a@x.edu", none, none,
        0, 0⟩] 1 none (some "b@y.com") none (by decide)).1,
    (c6_contact_merge
      [⟨1, "A", "B", none, none, none, none, some "a@x.edu", none, none,
        0, 0⟩] 1 none (some "b@y.com") none (by decide)).2.2.mpr
      ⟨0, _, _, rfl, rfl, Or.inr (Or.inl ⟨rfl, by decide⟩)⟩⟩

/-! ## Fuzzy-matcher lemmas -/

/-- The head of the descending-sorted shortlist is a shortlist element. -/
theorem maxBySnd_mem : ∀ {l : List (Nat × ℚ)} {x : Nat × ℚ},
    maxBySnd l = some x → x ∈ l := by
  intro l
  induction l with
  | nil => intro x h; cases h
  | cons a as ih =>
    intro x h
    simp only [maxBySnd] at h
    rcases hm : maxBySnd as with _ | y
    · rw [hm] at h
      obtain rfl := Option.some_inj.mp h
      exact List.mem_cons_self a as
    · rw [hm] at h
      dsimp only at h
      by_cases hc : y.2 ≤ a.2
      · rw [if_pos hc] at h
        obtain rfl := Option.some_inj.mp h
        exact List.mem_cons_self _ _
      · rw [if_neg hc] at h
        obtain rfl := Option.some_inj.mp h
        exact List.mem_cons_of_mem _ (ih hm)

/-- Only the empty list lacks a maximum. -/
theorem maxBySnd_eq_none {l : List (Nat × ℚ)} (h : maxBySnd l = none) :
    l = [] := by
  cases l with
  | nil => rfl
  | cons a as =>
    exfalso
    simp only [maxBySnd] at h
    rcases hm : maxBySnd as with _ | y <;> rw [hm] at h <;> dsimp only at h
    · cases h
    · by_cases hc : y.2 ≤ a.2
      · rw [if_pos hc] at h
        cases h
      · rw [if_neg hc] at h
        cases h

/-- The head of the descending-sorted shortlist has the greatest ratio. -/
theorem maxBySnd_le : ∀ {l : List (Nat × ℚ)} {x : Nat × ℚ},
    maxBySnd l = some x → ∀ y ∈ l, y.2 ≤ x.2 := by
  intro l
  induction l with
  | nil => intro x h; cases h
  | cons a as ih =>
    intro x h y hy
    simp only [maxBySnd] at h
    rcases hm : maxBySnd as with _ | z
    · rw [hm] at h
      obtain rfl := Option.some_inj.mp h
      rcases List.mem_cons.mp hy with rfl | hy2
      · exact le_refl _
      · rw [maxBySnd_eq_none hm] at hy2
        cases hy2
    · rw [hm] at h
      dsimp only at h
      by_cases hc : z.2 ≤ a.2
      · rw [if_pos hc] at h
        obtain rfl := Option.some_inj.mp h
        rcases List.mem_cons.mp hy with rfl | hy2
        · exact le_refl _
        · exact le_trans (ih hm y hy2) hc
      · rw [if_neg hc] at h
        obtain rfl := Option.some_inj.mp h
        rcases List.mem_cons.mp hy with rfl | hy2
        · exact le_of_lt (lt_of_not_le hc)
        · exact ih hm y hy2

/-- A non-empty list has a maximum element. -/
theorem maxBySnd_isSome (a : Nat × ℚ) (l : List (Nat × ℚ)) :
    (maxBySnd (a :: l)).isSome = true := by
  simp only [maxBySnd]
  rcases maxBySnd l with _ | y
  · rfl
  · dsimp only
    by_cases hc : y.2 ≤ a.2
    · rw [if_pos hc]
      rfl
    · rw [if_neg hc]
      rfl

/-- Shortlist membership characterised: a (person id, average) pair is
shortlisted exactly when some candidate carries it and the average reaches
the 0.80 threshold. -/
theorem fuzzyShortlist_mem (sim : String → String → ℚ)
    (people : List Person) (first last : String) (pid : Nat) (r : ℚ) :
    (pid, r) ∈ fuzzyShortlist sim people first last ↔
      ∃ p ∈ people, p.id = pid ∧ avgNameSim sim first last p = r ∧
        FUZZY_MATCH_THRESHOLD ≤ r := by
  unfold fuzzyShortlist
  rw [List.mem_filterMap]
  constructor
  · rintro ⟨p, hp, hsome⟩
    by_cases hc : FUZZY_MATCH_THRESHOLD ≤ avgNameSim sim first last p
    · rw [if_pos hc] at hsome
      have h1 : p.id = pid := congrArg Prod.fst (Option.some_inj.mp hsome)
      have h2 : avgNameSim sim first last p = r :=
        congrArg Prod.snd (Option.some_inj.mp hsome)
      exact ⟨p, hp, h1, h2, h2 ▸ hc⟩
    · rw [if_neg hc] at hsome
      cases hsome
  · rintro ⟨p, hp, hid, havg, hth⟩
    refine ⟨p, hp, ?_⟩
    rw [if_pos (havg ▸ hth), hid, havg]

/-! ## C3: fuzzy-match thresholds -/

/-- C3: a candidate is shortlisted exactly when its average first/last
name similarity is ≥ 0.80; a returned match is a highest-average candidate
with average ≥ 0.90; and a match is returned exactly when some candidate
reaches 0.90 (so a best candidate at 0.89 falls through to create-new). -/
theorem c3_fuzzy_thresholds (sim : String → String → ℚ)
    (people : List Person) (firstName lastName : String)
    (hf : firstName ≠ "") (hl : lastName ≠ "") :
    C3MatchSpec sim people firstName lastName := by
  unfold C3MatchSpec
  set f := pyTitle (pyStrip firstName) with hfdef
  set l := pyTitle (pyStrip lastName) with hldef
  have hguard : ¬(firstName = "" ∨ lastName = "") := by
    rintro (h | h)
    · exact hf h
    · exact hl h
  refine ⟨?_, ?_, ?_⟩
  · intro p hp
    constructor
    · intro hmem
      rcases (fuzzyShortlist_mem sim people f l p.id
          (avgNameSim sim f l p)).mp hmem with ⟨q, _, _, _, hth⟩
      exact hth
    · intro hth
      exact (fuzzyShortlist_mem sim people f l p.id
        (avgNameSim sim f l p)).mpr ⟨p, hp, rfl, rfl, hth⟩
  · intro pid hres
    unfold fuzzy_match_name at hres
    rw [if_neg hguard] at hres
    rcases hmax : maxBySnd (fuzzyShortlist sim people f l) with _ | best
    · rw [hmax] at hres
      cases hres
    · rw [hmax] at hres
      dsimp only at hres
      by_cases hc : (9:ℚ)/10 ≤ best.2
      · rw [if_pos hc] at hres
        obtain rfl : best.1 = pid := Option.some_inj.mp hres
        have hmem := maxBySnd_mem hmax
        rcases (fuzzyShortlist_mem sim people f l best.1 best.2).mp
            (by simpa using hmem) with ⟨p, hp, hid, havg, _⟩
        refine ⟨p, hp, hid, havg ▸ hc, ?_⟩
        intro q hq
        by_cases hqth : FUZZY_MATCH_THRESHOLD ≤ avgNameSim sim f l q
        · have hqmem : (q.id, avgNameSim sim f l q) ∈
              fuzzyShortlist sim people f l :=
            (fuzzyShortlist_mem sim people f l q.id _).mpr
              ⟨q, hq, rfl, rfl, hqth⟩
          have := maxBySnd_le hmax _ hqmem
          rw [havg]
          exact this
        · have h1 : avgNameSim sim f l q ≤ FUZZY_MATCH_THRESHOLD :=
            le_of_lt (lt_of_not_le hqth)
          have h2 : FUZZY_MATCH_THRESHOLD ≤ avgNameSim sim f l p := by
            rw [havg]
            exact le_trans (by norm_num [FUZZY_MATCH_THRESHOLD]) hc
          exact le_trans h1 h2
      · rw [if_neg hc] at hres
        cases hres
  · constructor
    · intro hsome
      rcases Option.isSome_iff_exists.mp hsome with ⟨pid, hres⟩
      unfold fuzzy_match_name at hres
      rw [if_neg hguard] at hres
      rcases hmax : maxBySnd (fuzzyShortlist sim people f l) with _ | best
      · rw [hmax] at hres
        cases hres
      · rw [hmax] at hres
        dsimp only at hres
        by_cases hc : (9:ℚ)/10 ≤ best.2
        · have hmem := maxBySnd_mem hmax
          rcases (fuzzyShortlist_mem sim people f l best.1 best.2).mp
              (by simpa using hmem) with ⟨p, hp, _, havg, _⟩
          exact ⟨p, hp, havg ▸ hc⟩
        · rw [if_neg hc] at hres
          cases hres
    · rintro ⟨p, hp, hth⟩
      have hmem : (p.id, avgNameSim sim f l p) ∈
          fuzzyShortlist sim people f l :=
        (fuzzyShortlist_mem sim people f l p.id _).mpr
          ⟨p, hp, rfl, rfl, le_trans (by norm_num [FUZZY_MATCH_THRESHOLD]) hth⟩
      unfold fuzzy_match_name
      rw [if_neg hguard]
      rcases hmax : maxBySnd (fuzzyShortlist sim people f l) with _ | best
      · rcases hsl : fuzzyShortlist sim people f l with _ | ⟨b, bs⟩
        · rw [hsl] at hmem
          cases hmem
        · rw [hsl] at hmax
          have := maxBySnd_isSome b bs
          rw [hmax] at this
          cases this
      · have hle := maxBySnd_le hmax _ hmem
        have h9 : (9:ℚ)/10 ≤ best.2 := le_trans hth hle
        dsimp only
        rw [if_pos h9]
        rfl

/-- C3 witness: with a constant similarity of 0.90 the single candidate is
matched; with 0.89 the candidate is shortlisted but no match is returned. -/
theorem c3_fuzzy_thresholds_w :
    (fuzzy_match_name (fun _ _ => (9:ℚ)/10)
      [⟨3, "Ann", "Lee", none, none, none, none, none, none, none, 0, 0⟩]
      "Ann" "Lee").isSome = true ∧
    fuzzy_match_name (fun _ _ => (89:ℚ)/100)
      [⟨3, "Ann", "Lee", none, none, none, none, none, none, none, 0, 0⟩]
      "Ann" "Lee" = none := by
  constructor
  · exact ((c3_fuzzy_thresholds (fun _ _ => (9:ℚ)/10)
      [⟨3, "Ann", "Lee", none, none, none, none, none, none, none, 0, 0⟩]
      "Ann" "Lee" (by decide) (by decide)).2.2).mpr
      ⟨⟨3, "Ann", "Lee", none, none, none, none, none, none, none, 0, 0⟩,
        by simp, by norm_num [avgNameSim]⟩
  · have h := (c3_fuzzy_thresholds (fun _ _ => (89:ℚ)/100)
      [⟨3, "Ann", "Lee", none, none, none, none, none, none, none, 0, 0⟩]
      "Ann" "Lee" (by decide) (by decide)).2.2
    have hn : ¬(fuzzy_match_name (fun _ _ => (89:ℚ)/100)
        [⟨3, "Ann", "Lee", none, none, none, none, none, none, none, 0, 0⟩]
        "Ann" "Lee").isSome = true := by
      intro hs
      rcases h.mp hs with ⟨p, hp, hge⟩
      simp only [List.mem_singleton] at hp
      subst hp
      norm_num [avgNameSim] at hge
    cases ho : fuzzy_match_name (fun _ _ => (89:ℚ)/100)
        [⟨3, "Ann", "Lee", none, none, none, none, none, none, none, 0, 0⟩]
        "Ann" "Lee" with
    | none => rfl
    | some v =>
      rw [ho] at hn
      exact absurd rfl hn

/-! ## Attendance-recorder lemmas: the two flag UPDATEs -/

/-- The two sequential UPDATEs equal one pointwise flag assignment. -/
theorem setFlags_eq (att : List AttRow) (pid eid : Nat) :
    setFirstEventFlags att pid eid = att.map (flagAssign pid eid) := by
  unfold setFirstEventFlags
  rw [List.map_map]
  congr 1
  funext a
  unfold flagAssign
  dsimp only [Function.comp]
  by_cases h1 : (a.personId == pid) = true
  · by_cases h2 : (a.eventId == eid) = true
    · simp [h1, h2]
    · simp [h1, h2]
  · simp [h1]

/-- Flag assignment never touches the person id. -/
theorem flagAssign_personId (pid eid : Nat) (a : AttRow) :
    (flagAssign pid eid a).personId = a.personId := by
  unfold flagAssign
  by_cases h : (a.personId == pid) = true <;> simp [h]

/-- Flag assignment never touches the event id. -/
theorem flagAssign_eventId (pid eid : Nat) (a : AttRow) :
    (flagAssign pid eid a).eventId = a.eventId := by
  unfold flagAssign
  by_cases h : (a.personId == pid) = true <;> simp [h]

/-- Flag assignment never touches the checked-in bit. -/
theorem flagAssign_checkedIn (pid eid : Nat) (a : AttRow) :
    (flagAssign pid eid a).checkedIn = a.checkedIn := by
  unfold flagAssign
  by_cases h : (a.personId == pid) = true <;> simp [h]

/-- Pair existence is invariant under the flag UPDATEs. -/
theorem pairExists_map_flagAssign (att : List AttRow) (pid eid q f : Nat) :
    pairExists (att.map (flagAssign pid eid)) q f = pairExists att q f := by
  unfold pairExists
  induction att with
  | nil => rfl
  | cons a rest ih =>
    simp only [List.map_cons, List.any_cons]
    rw [flagAssign_personId, flagAssign_eventId, ih]

/-- The earliest-event join is invariant under the flag UPDATEs. -/
theorem checkedInJoined_map_flagAssign (events : List EventRow)
    (att : List AttRow) (pid eid q : Nat) :
    checkedInJoined events (att.map (flagAssign pid eid)) q =
      checkedInJoined events att q := by
  unfold checkedInJoined
  induction att with
  | nil => rfl
  | cons a rest ih =>
    simp only [List.map_cons, List.filterMap_cons]
    rw [flagAssign_personId, flagAssign_checkedIn, flagAssign_eventId, ih]

/-- The (person, event) key list is invariant under the flag UPDATEs. -/
theorem attPairs_map_flagAssign (att : List AttRow) (pid eid : Nat) :
    attPairs (att.map (flagAssign pid eid)) = attPairs att := by
  unfold attPairs
  induction att with
  | nil => rfl
  | cons a rest ih =>
    simp only [List.map_cons]
    rw [flagAssign_personId, flagAssign_eventId, ih]

/-! ## Attendance-recorder lemmas: the earliest-event query -/

/-- The selected minimum belongs to the joined list. -/
theorem minBySnd_mem : ∀ {l : List (Nat × Int)} {x : Nat × Int},
    minBySnd l = some x → x ∈ l := by
  intro l
  induction l with
  | nil => intro x h; cases h
  | cons a as ih =>
    intro x h
    simp only [minBySnd] at h
    rcases hm : minBySnd as with _ | y <;> rw [hm] at h <;> dsimp only at h
    · obtain rfl := Option.some_inj.mp h
      exact List.mem_cons_self a as
    · by_cases hc : a.2 ≤ y.2
      · rw [if_pos hc] at h
        obtain rfl := Option.some_inj.mp h
        exact List.mem_cons_self _ _
      · rw [if_neg hc] at h
        obtain rfl := Option.some_inj.mp h
        exact List.mem_cons_of_mem _ (ih hm)

/-- Only the empty joined list lacks a minimum. -/
theorem minBySnd_eq_none : ∀ {l : List (Nat × Int)},
    minBySnd l = none → l = [] := by
  intro l h
  cases l with
  | nil => rfl
  | cons a as =>
    exfalso
    simp only [minBySnd] at h
    rcases hm : minBySnd as with _ | y <;> rw [hm] at h <;> dsimp only at h
    · cases h
    · by_cases hc : a.2 ≤ y.2
      · rw [if_pos hc] at h
        cases h
      · rw [if_neg hc] at h
        cases h

/-- The selected minimum has the least start time. -/
theorem minBySnd_min : ∀ {l : List (Nat × Int)} {x : Nat × Int},
    minBySnd l = some x → ∀ y ∈ l, x.2 ≤ y.2 := by
  intro l
  induction l with
  | nil => intro x h; cases h
  | cons a as ih =>
    intro x h y hy
    simp only [minBySnd] at h
    rcases hm : minBySnd as with _ | z <;> rw [hm] at h <;> dsimp only at h
    · obtain rfl := Option.some_inj.mp h
      rcases List.mem_cons.mp hy with rfl | hy2
      · exact le_refl _
      · rw [minBySnd_eq_none hm] at hy2
        cases hy2
    · by_cases hc : a.2 ≤ z.2
      · rw [if_pos hc] at h
        obtain rfl := Option.some_inj.mp h
        rcases List.mem_cons.mp hy with rfl | hy2
        · exact le_refl _
        · exact le_trans hc (ih hm y hy2)
      · rw [if_neg hc] at h
        obtain rfl := Option.some_inj.mp h
        rcases List.mem_cons.mp hy with rfl | hy2
        · exact le_of_lt (lt_of_not_le hc)
        · exact ih hm y hy2

/-- Membership in the earliest-event join, characterised. -/
theorem checkedInJoined_mem (events : List EventRow) (att : List AttRow)
    (pid : Nat) (e : Nat) (s : Int) :
    (e, s) ∈ checkedInJoined events att pid ↔
      ∃ a ∈ att, a.personId = pid ∧ a.checkedIn = true ∧ a.eventId = e ∧
        eventStart events e = some s := by
  unfold checkedInJoined
  rw [List.mem_filterMap]
  constructor
  · rintro ⟨a, ha, hsome⟩
    by_cases hc : (a.personId == pid && a.checkedIn) = true
    · rw [if_pos hc] at hsome
      rcases Option.map_eq_some'.mp hsome with ⟨st, hst, hpair⟩
      have he : a.eventId = e := congrArg Prod.fst hpair
      have hs : st = s := congrArg Prod.snd hpair
      rcases (Bool.and_eq_true _ _).mp hc with ⟨h1, h2⟩
      exact ⟨a, ha, by simpa using h1, h2, he, by rw [← he, hst, hs]⟩
    · rw [if_neg hc] at hsome
      cases hsome
  · rintro ⟨a, ha, h1, h2, h3, h4⟩
    refine ⟨a, ha, ?_⟩
    rw [if_pos (by simp [h1, h2])]
    rw [h3, h4]
    rfl

/-- The earliest-event query is invariant under the flag UPDATEs. -/
theorem earliest_setFlags (events : List EventRow) (att : List AttRow)
    (pid eid q : Nat) :
    earliestCheckedInEvent events (setFirstEventFlags att pid eid) q =
      earliestCheckedInEvent events att q := by
  unfold earliestCheckedInEvent
  rw [setFlags_eq, checkedInJoined_map_flagAssign]

/-- A selected earliest event comes with a least start time. -/
theorem earliest_spec (events : List EventRow) (att : List AttRow)
    (pid e : Nat) (h : earliestCheckedInEvent events att pid = some e) :
    ∃ s, (e, s) ∈ checkedInJoined events att pid ∧
      ∀ y ∈ checkedInJoined events att pid, s ≤ y.2 := by
  unfold earliestCheckedInEvent at h
  rcases hm : minBySnd (checkedInJoined events att pid) with _ | x
  · rw [hm] at h
    cases h
  · rw [hm] at h
    simp only [Option.map_some'] at h
    have hx : x.1 = e := Option.some_inj.mp h
    refine ⟨x.2, ?_, fun y hy => minBySnd_min hm y hy⟩
    rw [← hx]
    exact minBySnd_mem hm

/-- No earliest event means the join was empty. -/
theorem earliest_none (events : List EventRow) (att : List AttRow)
    (pid : Nat) (h : earliestCheckedInEvent events att pid = none) :
    checkedInJoined events att pid = [] := by
  unfold earliestCheckedInEvent at h
  rcases hm : minBySnd (checkedInJoined events att pid) with _ | x
  · exact minBySnd_eq_none hm
  · rw [hm] at h
    cases h

/-- A non-empty join yields an earliest event. -/
theorem earliest_of_joined_ne (events : List EventRow) (att : List AttRow)
    (pid : Nat) (h : checkedInJoined events att pid ≠ []) :
    ∃ e, earliestCheckedInEvent events att pid = some e := by
  rcases he : earliestCheckedInEvent events att pid with _ | e
  · exact absurd (earliest_none _ _ _ he) h
  · exact ⟨e, rfl⟩

/-- The flag UPDATEs distribute over an appended row. -/
theorem setFlags_append (att : List AttRow) (b : AttRow) (pid eid : Nat) :
    setFirstEventFlags (att ++ [b]) pid eid =
      setFirstEventFlags att pid eid ++ [flagAssign pid eid b] := by
  rw [setFlags_eq, setFlags_eq, List.map_append, List.map_cons, List.map_nil]

/-- Applying the same flag UPDATEs twice is the same as once. -/
theorem setFlags_idem (att : List AttRow) (pid eid : Nat) :
    setFirstEventFlags (setFirstEventFlags att pid eid) pid eid =
      setFirstEventFlags att pid eid := by
  rw [setFlags_eq, setFlags_eq, List.map_map]
  congr 1
  funext a
  unfold flagAssign
  dsimp only [Function.comp]
  by_cases h : (a.personId == pid) = true
  · simp [h]
  · simp [h]

/-- Flag UPDATEs of different persons commute. -/
theorem setFlags_comm (att : List AttRow) (p e q f : Nat) (hpq : p ≠ q) :
    setFirstEventFlags (setFirstEventFlags att p e) q f =
      setFirstEventFlags (setFirstEventFlags att q f) p e := by
  rw [setFlags_eq, setFlags_eq, setFlags_eq, setFlags_eq, List.map_map,
    List.map_map]
  congr 1
  funext a
  unfold flagAssign
  dsimp only [Function.comp]
  by_cases h1 : (a.personId == p) = true
  · have h2 : (a.personId == q) = false := by
      rcases hq : a.personId == q with _ | _
      · rfl
      · exact absurd (((eq_of_beq h1).symm).trans (eq_of_beq hq)) hpq
    simp [h1, h2]
  · by_cases h2 : (a.personId == q) = true
    · simp [h1, h2]
    · simp [h1, h2]

/-- `recomputeFirstEvent` when an earliest event exists. -/
theorem recompute_of_earliest_some {events : List EventRow}
    {att : List AttRow} {pid e : Nat}
    (h : earliestCheckedInEvent events att pid = some e) :
    recomputeFirstEvent events att pid = setFirstEventFlags att pid e := by
  unfold recomputeFirstEvent
  rw [h]

/-- `recomputeFirstEvent` when no earliest event exists. -/
theorem recompute_of_earliest_none {events : List EventRow}
    {att : List AttRow} {pid : Nat}
    (h : earliestCheckedInEvent events att pid = none) :
    recomputeFirstEvent events att pid = att := by
  unfold recomputeFirstEvent
  rw [h]

/-- Recomputing the first-event flag twice is the same as once. -/
theorem recompute_idem (events : List EventRow) (att : List AttRow)
    (pid : Nat) :
    recomputeFirstEvent events (recomputeFirstEvent events att pid) pid =
      recomputeFirstEvent events att pid := by
  rcases he : earliestCheckedInEvent events att pid with _ | e
  · rw [recompute_of_earliest_none he, recompute_of_earliest_none he]
  · rw [recompute_of_earliest_some he]
    have he2 : earliestCheckedInEvent events
        (setFirstEventFlags att pid e) pid = some e := by
      rw [earliest_setFlags]
      exact he
    rw [recompute_of_earliest_some he2, setFlags_idem]

/-- A recompute fixpoint survives another person's flag UPDATEs. -/
theorem recompute_fix_setFlags_other (events : List EventRow)
    (att : List AttRow) (p e q : Nat) (hpq : p ≠ q)
    (hfix : recomputeFirstEvent events att q = att) :
    recomputeFirstEvent events (setFirstEventFlags att p e) q =
      setFirstEventFlags att p e := by
  rcases he : earliestCheckedInEvent events att q with _ | f
  · exact recompute_of_earliest_none (by rw [earliest_setFlags]; exact he)
  · have h1 : earliestCheckedInEvent events
        (setFirstEventFlags att p e) q = some f := by
      rw [earliest_setFlags]
      exact he
    rw [recompute_of_earliest_some h1]
    have hfix2 : setFirstEventFlags att q f = att := by
      rw [recompute_of_earliest_some he] at hfix
      exact hfix
    rw [setFlags_comm att p e q f hpq, hfix2]

/-- The earliest event's (person, event) pair is present. -/
theorem earliest_pairExists (events : List EventRow) (att : List AttRow)
    (pid e : Nat) (h : earliestCheckedInEvent events att pid = some e) :
    pairExists att pid e = true := by
  rcases earliest_spec events att pid e h with ⟨s, hmem, _⟩
  rcases (checkedInJoined_mem _ _ _ _ _).mp hmem with ⟨a, ha, h1, h2, h3, _⟩
  unfold pairExists
  rw [List.any_eq_true]
  exact ⟨a, ha, by simp [h1, h3]⟩

/-- The join ignores an appended row of another person, or one that is
not checked in. -/
theorem checkedInJoined_append_skip (events : List EventRow)
    (att : List AttRow) (pid : Nat) (b : AttRow)
    (hb : (b.personId == pid) = false ∨ b.checkedIn = false) :
    checkedInJoined events (att ++ [b]) pid =
      checkedInJoined events att pid := by
  unfold checkedInJoined
  rw [List.filterMap_append]
  rcases hb with hb | hb
  · have hb2 : ¬b.personId = pid := by
      intro h
      rw [h] at hb
      simp at hb
    simp [List.filterMap_cons, hb2]
  · simp [List.filterMap_cons, hb]

/-- The earliest-event query ignores such appended rows too. -/
theorem earliest_append_skip (events : List EventRow) (att : List AttRow)
    (pid : Nat) (b : AttRow)
    (hb : (b.personId == pid) = false ∨ b.checkedIn = false) :
    earliestCheckedInEvent events (att ++ [b]) pid =
      earliestCheckedInEvent events att pid := by
  unfold earliestCheckedInEvent
  rw [checkedInJoined_append_skip events att pid b hb]

/-- A recompute fixpoint survives appending a join-ignored, unflagged row
whose pair was absent. -/
theorem recompute_fix_append (events : List EventRow) (att : List AttRow)
    (q : Nat) (b : AttRow)
    (hfix : recomputeFirstEvent events att q = att)
    (hskip : (b.personId == q) = false ∨ b.checkedIn = false)
    (hbf : b.isFirstEvent = false)
    (hpair : b.personId = q → pairExists att q b.eventId = false) :
    recomputeFirstEvent events (att ++ [b]) q = att ++ [b] := by
  rcases he : earliestCheckedInEvent events att q with _ | e
  · exact recompute_of_earliest_none
      (by rw [earliest_append_skip _ _ _ _ hskip]; exact he)
  · have h1 : earliestCheckedInEvent events (att ++ [b]) q = some e := by
      rw [earliest_append_skip _ _ _ _ hskip]
      exact he
    rw [recompute_of_earliest_some h1, setFlags_append]
    have hfix2 : setFirstEventFlags att q e = att := by
      rw [recompute_of_earliest_some he] at hfix
      exact hfix
    rw [hfix2]
    congr 1
    unfold flagAssign
    by_cases hq : (b.personId == q) = true
    · have hee : (b.eventId == e) = false := by
        rcases hbe : b.eventId == e with _ | _
        · rfl
        · exfalso
          have hbe2 : b.eventId = e := eq_of_beq hbe
          have hpf := hpair (eq_of_beq hq)
          rw [hbe2, earliest_pairExists events att q e he] at hpf
          cases hpf
      rw [if_pos hq, hee]
      cases b with
      | mk bp be br ba bc bd bf bt =>
        simp only [AttRow.mk.injEq] at hbf ⊢
        simp [hbf]
    · rw [if_neg hq]

/-! ## Insert and token lemmas -/

/-- The ON CONFLICT DO NOTHING insert is the identity on an existing pair. -/
theorem insertAttendance_of_pairExists (att : List AttRow) (pid eid : Nat)
    (rv ap ch : Bool) (dt : Option Int) (tok : Nat)
    (h : pairExists att pid eid = true) :
    insertAttendance att pid eid rv ap ch dt tok = att := by
  unfold insertAttendance
  rw [if_pos h]

/-- The insert appends a fresh unflagged row when the pair is absent. -/
theorem insertAttendance_of_pairAbsent (att : List AttRow) (pid eid : Nat)
    (rv ap ch : Bool) (dt : Option Int) (tok : Nat)
    (h : pairExists att pid eid = false) :
    insertAttendance att pid eid rv ap ch dt tok =
      att ++ [⟨pid, eid, rv, ap, ch, dt, false, tok⟩] := by
  unfold insertAttendance
  rw [if_neg (by rw [h]; exact Bool.false_ne_true)]

/-- After the insert, the inserted pair exists. -/
theorem pairExists_insert_self (att : List AttRow) (pid eid : Nat)
    (rv ap ch : Bool) (dt : Option Int) (tok : Nat) :
    pairExists (insertAttendance att pid eid rv ap ch dt tok) pid eid =
      true := by
  unfold insertAttendance
  by_cases h : pairExists att pid eid = true
  · rw [if_pos h]
    exact h
  · rw [if_neg h]
    unfold pairExists
    rw [List.any_eq_true]
    exact ⟨⟨pid, eid, rv, ap, ch, dt, false, tok⟩, by simp, by simp⟩

/-- Pair existence is monotone under appending. -/
theorem pairExists_append_mono (att : List AttRow) (b : AttRow)
    (q f : Nat) (h : pairExists att q f = true) :
    pairExists (att ++ [b]) q f = true := by
  unfold pairExists at *
  rw [List.any_eq_true] at *
  rcases h with ⟨a, ha, hp⟩
  exact ⟨a, List.mem_append_left _ ha, hp⟩

/-- Pair existence is monotone under the insert. -/
theorem pairExists_insert_mono (att : List AttRow) (pid eid : Nat)
    (rv ap ch : Bool) (dt : Option Int) (tok : Nat) (q f : Nat)
    (h : pairExists att q f = true) :
    pairExists (insertAttendance att pid eid rv ap ch dt tok) q f = true := by
  unfold insertAttendance
  by_cases hp : pairExists att pid eid = true
  · rw [if_pos hp]
    exact h
  · rw [if_neg hp]
    exact pairExists_append_mono _ _ _ _ h

/-- After `find_or_create_invite_token`, the key exists. -/
theorem foc_key_exists (tokens : List TokenRow) (nextId eventId : Nat)
    (tracking : Option String) :
    tokenKeyExists
      (find_or_create_invite_token tokens nextId eventId tracking).1.1
      eventId tracking = true := by
  unfold find_or_create_invite_token
  rcases hfind : tokens.find?
      (fun t => t.eventId == eventId && t.value == (tokenValCat tracking).1)
    with _ | t
  · rw [hfind]
    unfold tokenKeyExists
    rw [List.any_eq_true]
    exact ⟨⟨nextId, eventId, (tokenValCat tracking).2,
      (tokenValCat tracking).1⟩, by simp, by simp⟩
  · rw [hfind]
    unfold tokenKeyExists
    rw [List.any_eq_true]
    exact ⟨t, List.mem_of_find?_eq_some hfind,
      by simpa using List.find?_some hfind⟩

/-- `find_or_create_invite_token` is a state no-op when the key exists. -/
theorem foc_noop (tokens : List TokenRow) (nextId eventId : Nat)
    (tracking : Option String)
    (h : tokenKeyExists tokens eventId tracking = true) :
    (find_or_create_invite_token tokens nextId eventId tracking).1 =
      (tokens, nextId) := by
  unfold find_or_create_invite_token
  rcases hfind : tokens.find?
      (fun t => t.eventId == eventId && t.value == (tokenValCat tracking).1)
    with _ | t
  · exfalso
    unfold tokenKeyExists at h
    rw [List.any_eq_true] at h
    rcases h with ⟨tok, htok, hp⟩
    exact (List.find?_eq_none.mp hfind tok htok) hp
  · rw [hfind]

/-- Token keys are monotone under `find_or_create_invite_token`. -/
theorem tokenKeyExists_mono (tokens : List TokenRow) (nextId eventId : Nat)
    (tracking : Option String) (e2 : Nat) (t2 : Option String)
    (h : tokenKeyExists tokens e2 t2 = true) :
    tokenKeyExists
      (find_or_create_invite_token tokens nextId eventId tracking).1.1
      e2 t2 = true := by
  unfold find_or_create_invite_token
  rcases hfind : tokens.find?
      (fun t => t.eventId == eventId && t.value == (tokenValCat tracking).1)
    with _ | t
  · rw [hfind]
    unfold tokenKeyExists at *
    rw [List.any_eq_true] at *
    rcases h with ⟨tok, htok, hp⟩
    exact ⟨tok, List.mem_append_left _ htok, hp⟩
  · rw [hfind]
    exact h

/-! ## Settled rows -/

/-- `create_attendance_record`, zeta-reduced to its explicit form. -/
theorem create_attendance_record_eq (pdt : String → Option Int)
    (events : List EventRow) (st : IngestState) (pid eventId : Nat)
    (row : CsvRow) :
    create_attendance_record pdt events st pid eventId row =
      (⟨(if rowCheckedIn row = true then
            recomputeFirstEvent events
              (insertAttendance st.att pid eventId (rowRsvp row)
                (rowApproved row) (rowCheckedIn row)
                (rowRsvpDatetime pdt row)
                (find_or_create_invite_token st.tokens st.nextTokenId
                  eventId row.trackingLink).2) pid
          else
            insertAttendance st.att pid eventId (rowRsvp row)
              (rowApproved row) (rowCheckedIn row)
              (rowRsvpDatetime pdt row)
              (find_or_create_invite_token st.tokens st.nextTokenId
                eventId row.trackingLink).2),
        (find_or_create_invite_token st.tokens st.nextTokenId eventId
          row.trackingLink).1.1,
        (find_or_create_invite_token st.tokens st.nextTokenId eventId
          row.trackingLink).1.2⟩,
       (row.trackingLink, rowCheckedIn row)) := rfl

/-- A row just processed by `create_attendance_record` is settled. -/
theorem goodRow_self (pdt : String → Option Int) (events : List EventRow)
    (eventId : Nat) (st : IngestState) (pid : Nat) (row : CsvRow) :
    goodRow events (create_attendance_record pdt events st pid eventId row).1
      eventId (pid, row) := by
  rw [create_attendance_record_eq]
  refine ⟨?_, ?_, ?_⟩
  · show pairExists (if rowCheckedIn row = true then _ else _) pid eventId =
      true
    by_cases hchk : rowCheckedIn row = true
    · rw [if_pos hchk]
      rcases he : earliestCheckedInEvent events
          (insertAttendance st.att pid eventId (rowRsvp row)
            (rowApproved row) (rowCheckedIn row) (rowRsvpDatetime pdt row)
            (find_or_create_invite_token st.tokens st.nextTokenId eventId
              row.trackingLink).2) pid with _ | e
      · rw [recompute_of_earliest_none he]
        exact pairExists_insert_self _ _ _ _ _ _ _ _
      · rw [recompute_of_earliest_some he, setFlags_eq,
          pairExists_map_flagAssign]
        exact pairExists_insert_self _ _ _ _ _ _ _ _
    · rw [if_neg hchk]
      exact pairExists_insert_self _ _ _ _ _ _ _ _
  · exact foc_key_exists _ _ _ _
  · intro hchk
    have hchk2 : rowCheckedIn row = true := hchk
    show recomputeFirstEvent events
        (if rowCheckedIn row = true then _ else _) pid =
      (if rowCheckedIn row = true then _ else _)
    rw [if_pos hchk2]
    exact recompute_idem _ _ _

/-- Processing any further row keeps an already-settled row settled. -/
theorem goodRow_step (pdt : String → Option Int) (events : List EventRow)
    (eventId : Nat) (st : IngestState) (pr pr' : Nat × CsvRow)
    (h : goodRow events st eventId pr) :
    goodRow events (ingestRow pdt events eventId st pr') eventId pr := by
  obtain ⟨hpair, htok, hfix⟩ := h
  unfold ingestRow
  rw [create_attendance_record_eq]
  refine ⟨?_, ?_, ?_⟩
  · show pairExists (if rowCheckedIn pr'.2 = true then _ else _) pr.1
      eventId = true
    by_cases hchk' : rowCheckedIn pr'.2 = true
    · rw [if_pos hchk']
      rcases he : earliestCheckedInEvent events
          (insertAttendance st.att pr'.1 eventId (rowRsvp pr'.2)
            (rowApproved pr'.2) (rowCheckedIn pr'.2)
            (rowRsvpDatetime pdt pr'.2)
            (find_or_create_invite_token st.tokens st.nextTokenId eventId
              pr'.2.trackingLink).2) pr'.1 with _ | e
      · rw [recompute_of_earliest_none he]
        exact pairExists_insert_mono _ _ _ _ _ _ _ _ _ _ hpair
      · rw [recompute_of_earliest_some he, setFlags_eq,
          pairExists_map_flagAssign]
        exact pairExists_insert_mono _ _ _ _ _ _ _ _ _ _ hpair
    · rw [if_neg hchk']
      exact pairExists_insert_mono _ _ _ _ _ _ _ _ _ _ hpair
  · exact tokenKeyExists_mono _ _ _ _ _ _ htok
  · intro hchk
    have hfix1 := hfix hchk
    show recomputeFirstEvent events
        (if rowCheckedIn pr'.2 = true then _ else _) pr.1 =
      (if rowCheckedIn pr'.2 = true then _ else _)
    by_cases hex : pairExists st.att pr'.1 eventId = true
    · rw [insertAttendance_of_pairExists _ _ _ _ _ _ _ _ hex]
      by_cases hchk' : rowCheckedIn pr'.2 = true
      · rw [if_pos hchk']
        by_cases hpq : pr'.1 = pr.1
        · rw [hpq]
          exact recompute_idem _ _ _
        · rcases he : earliestCheckedInEvent events st.att pr'.1 with _ | e
          · rw [recompute_of_earliest_none he]
            exact hfix1
          · rw [recompute_of_earliest_some he]
            exact recompute_fix_setFlags_other _ _ _ _ _ hpq hfix1
      · rw [if_neg hchk']
        exact hfix1
    · have hex2 : pairExists st.att pr'.1 eventId = false := by
        rcases h2 : pairExists st.att pr'.1 eventId with _ | _
        · rfl
        · exact absurd h2 hex
      rw [insertAttendance_of_pairAbsent _ _ _ _ _ _ _ _ hex2]
      by_cases hchk' : rowCheckedIn pr'.2 = true
      · rw [if_pos hchk']
        by_cases hpq : pr'.1 = pr.1
        · rw [hpq]
          exact recompute_idem _ _ _
        · have hfixApp : recomputeFirstEvent events
              (st.att ++ [⟨pr'.1, eventId, rowRsvp pr'.2, rowApproved pr'.2,
                rowCheckedIn pr'.2, rowRsvpDatetime pdt pr'.2, false,
                (find_or_create_invite_token st.tokens st.nextTokenId
                  eventId pr'.2.trackingLink).2⟩]) pr.1 =
              st.att ++ [⟨pr'.1, eventId, rowRsvp pr'.2, rowApproved pr'.2,
                rowCheckedIn pr'.2, rowRsvpDatetime pdt pr'.2, false,
                (find_or_create_invite_token st.tokens st.nextTokenId
                  eventId pr'.2.trackingLink).2⟩] := by
            apply recompute_fix_append events st.att pr.1 _ hfix1
            · left
              show (pr'.1 == pr.1) = false
              rcases hb : pr'.1 == pr.1 with _ | _
              · rfl
              · exact absurd (eq_of_beq hb) hpq
            · rfl
            · intro hcon
              exact absurd hcon hpq
          rcases he : earliestCheckedInEvent events
              (st.att ++ [⟨pr'.1, eventId, rowRsvp pr'.2, rowApproved pr'.2,
                rowCheckedIn pr'.2, rowRsvpDatetime pdt pr'.2, false,
                (find_or_create_invite_token st.tokens st.nextTokenId
                  eventId pr'.2.trackingLink).2⟩]) pr'.1 with _ | e
          · rw [recompute_of_earliest_none he]
            exact hfixApp
          · rw [recompute_of_earliest_some he]
            exact recompute_fix_setFlags_other _ _ _ _ _ hpq hfixApp
      · have hchkF : rowCheckedIn pr'.2 = false := by
          rcases h2 : rowCheckedIn pr'.2 with _ | _
          · rfl
          · exact absurd h2 hchk'
        rw [if_neg hchk']
        apply recompute_fix_append events st.att pr.1 _ hfix1
        · right
          exact hchkF
        · rfl
        · intro hcon
          have hcon2 : pr'.1 = pr.1 := hcon
          show pairExists st.att pr.1 eventId = false
          rw [← hcon2]
          exact hex2

/-- Re-processing a settled row is a state no-op. -/
theorem ingestRow_noop (pdt : String → Option Int) (events : List EventRow)
    (eventId : Nat) (st : IngestState) (pr : Nat × CsvRow)
    (h : goodRow events st eventId pr) :
    ingestRow pdt events eventId st pr = st := by
  obtain ⟨hpair, htok, hfix⟩ := h
  unfold ingestRow
  rw [create_attendance_record_eq]
  show (⟨_, _, _⟩ : IngestState) = st
  have htokeq := foc_noop st.tokens st.nextTokenId eventId
    pr.2.trackingLink htok
  rw [insertAttendance_of_pairExists _ _ _ _ _ _ _ _ hpair, htokeq]
  by_cases hchk : rowCheckedIn pr.2 = true
  · rw [if_pos hchk, hfix hchk]
  · rw [if_neg hchk]

/-- Settledness persists through the rest of the batch fold. -/
theorem goodRow_fold (pdt : String → Option Int) (events : List EventRow)
    (eventId : Nat) (rows : List (Nat × CsvRow)) :
    ∀ (st : IngestState) (pr : Nat × CsvRow),
      goodRow events st eventId pr →
      goodRow events (ingestFold pdt events eventId st rows) eventId pr := by
  induction rows with
  | nil => exact fun st pr h => h
  | cons r rs ih =>
    intro st pr h
    have h1 := goodRow_step pdt events eventId st pr r h
    simpa [ingestFold, List.foldl_cons] using ih _ _ h1

/-- After a full batch, every processed row is settled. -/
theorem allGood_fold (pdt : String → Option Int) (events : List EventRow)
    (eventId : Nat) (rows : List (Nat × CsvRow)) :
    ∀ (st : IngestState) (pr : Nat × CsvRow), pr ∈ rows →
      goodRow events (ingestFold pdt events eventId st rows) eventId pr := by
  induction rows with
  | nil =>
    intro st pr h
    cases h
  | cons r rs ih =>
    intro st pr h
    rcases List.mem_cons.mp h with rfl | h2
    · have h1 : goodRow events (ingestRow pdt events eventId st pr)
          eventId pr := goodRow_self pdt events eventId st pr.1 pr.2
      have h3 := goodRow_fold pdt events eventId rs _ _ h1
      simpa [ingestFold, List.foldl_cons] using h3
    · have h3 := ih (ingestRow pdt events eventId st r) pr h2
      simpa [ingestFold, List.foldl_cons] using h3

/-- Folding over rows that are all settled is the identity. -/
theorem ingestFold_noop (pdt : String → Option Int) (events : List EventRow)
    (eventId : Nat) (rows : List (Nat × CsvRow)) :
    ∀ st : IngestState, (∀ pr ∈ rows, goodRow events st eventId pr) →
      ingestFold pdt events eventId st rows = st := by
  induction rows with
  | nil =>
    intro st _
    rfl
  | cons r rs ih =>
    intro st h
    have hr := h r (List.mem_cons_self _ _)
    have hstep : ingestFold pdt events eventId st (r :: rs) =
        ingestFold pdt events eventId (ingestRow pdt events eventId st r)
          rs := rfl
    rw [hstep, ingestRow_noop pdt events eventId st r hr]
    exact ih st (fun pr hpr => h pr (List.mem_cons_of_mem _ hpr))

/-! ## Uniqueness of attendance pairs -/

/-- The pair keys of an append. -/
theorem attPairs_append (att : List AttRow) (b : AttRow) :
    attPairs (att ++ [b]) = attPairs att ++ [(b.personId, b.eventId)] := by
  unfold attPairs
  rw [List.map_append]
  rfl

/-- Pair existence is membership in the key list. -/
theorem pairExists_iff_mem (att : List AttRow) (q f : Nat) :
    pairExists att q f = true ↔ (q, f) ∈ attPairs att := by
  unfold pairExists attPairs
  rw [List.any_eq_true]
  constructor
  · rintro ⟨a, ha, hp⟩
    rcases (Bool.and_eq_true _ _).mp hp with ⟨h1, h2⟩
    have : (q, f) = (a.personId, a.eventId) := by
      rw [eq_of_beq h1, eq_of_beq h2]
    rw [this]
    exact List.mem_map_of_mem _ ha
  · intro hmem
    rcases List.mem_map.mp hmem with ⟨a, ha, heq⟩
    refine ⟨a, ha, ?_⟩
    have h1 : a.personId = q := congrArg Prod.fst heq
    have h2 : a.eventId = f := congrArg Prod.snd heq
    simp [h1, h2]

/-- The look-before-insert keeps attendance pairs duplicate-free. -/
theorem attPairs_nodup_insert (att : List AttRow) (pid eid : Nat)
    (rv ap ch : Bool) (dt : Option Int) (tok : Nat)
    (h : (attPairs att).Nodup) :
    (attPairs (insertAttendance att pid eid rv ap ch dt tok)).Nodup := by
  unfold insertAttendance
  by_cases hp : pairExists att pid eid = true
  · rw [if_pos hp]
    exact h
  · rw [if_neg hp]
    rw [attPairs_append, List.nodup_append]
    refine ⟨h, List.nodup_singleton _, ?_⟩
    intro k hk1 hk2
    simp only [List.mem_singleton] at hk2
    subst hk2
    exact hp ((pairExists_iff_mem att pid eid).mpr hk1)

/-- One processed row keeps attendance pairs duplicate-free. -/
theorem attPairs_ingestRow (pdt : String → Option Int)
    (events : List EventRow) (eventId : Nat) (st : IngestState)
    (pr : Nat × CsvRow) (h : (attPairs st.att).Nodup) :
    (attPairs (ingestRow pdt events eventId st pr).att).Nodup := by
  unfold ingestRow
  rw [create_attendance_record_eq]
  show (attPairs (if rowCheckedIn pr.2 = true then _ else _)).Nodup
  by_cases hchk : rowCheckedIn pr.2 = true
  · rw [if_pos hchk]
    rcases he : earliestCheckedInEvent events
        (insertAttendance st.att pr.1 eventId (rowRsvp pr.2)
          (rowApproved pr.2) (rowCheckedIn pr.2) (rowRsvpDatetime pdt pr.2)
          (find_or_create_invite_token st.tokens st.nextTokenId eventId
            pr.2.trackingLink).2) pr.1 with _ | e
    · rw [recompute_of_earliest_none he]
      exact attPairs_nodup_insert _ _ _ _ _ _ _ _ h
    · rw [recompute_of_earliest_some he, setFlags_eq,
        attPairs_map_flagAssign]
      exact attPairs_nodup_insert _ _ _ _ _ _ _ _ h
  · rw [if_neg hchk]
    exact attPairs_nodup_insert _ _ _ _ _ _ _ _ h

/-- A whole batch keeps attendance pairs duplicate-free. -/
theorem attPairs_ingestFold (pdt : String → Option Int)
    (events : List EventRow) (eventId : Nat) (rows : List (Nat × CsvRow)) :
    ∀ st : IngestState, (attPairs st.att).Nodup →
      (attPairs (ingestFold pdt events eventId st rows).att).Nodup := by
  induction rows with
  | nil => exact fun st h => h
  | cons r rs ih =>
    intro st h
    have h1 := attPairs_ingestRow pdt events eventId st r h
    simpa [ingestFold, List.foldl_cons] using ih _ h1

/-! ## Aggregate recomputation lemmas -/

/-- A map preserving ids and start times does not change `eventStart`. -/
theorem eventStart_map_pres {f : EventRow → EventRow}
    (hid : ∀ x, (f x).id = x.id)
    (hst : ∀ x, (f x).startDatetime = x.startDatetime) :
    ∀ (ev : List EventRow) (e : Nat),
      eventStart (ev.map f) e = eventStart ev e := by
  intro ev e
  unfold eventStart
  induction ev with
  | nil => rfl
  | cons a rest ih =>
    simp only [List.map_cons, List.find?]
    rw [hid a]
    by_cases hb : (a.id == e) = true
    · rw [hb]
      simp [hst a]
    · have hb2 : (a.id == e) = false := by
        rcases h2 : a.id == e with _ | _
        · rfl
        · exact absurd h2 hb
      rw [hb2]
      exact ih

/-- The event-attendance UPDATE does not change any start time lookup. -/
theorem eventStart_applyEventCount (ev : List EventRow) (att : List AttRow)
    (eid e : Nat) :
    eventStart (applyEventCount ev att eid) e = eventStart ev e := by
  unfold applyEventCount
  apply eventStart_map_pres
  · intro x
    by_cases h : (x.id == eid) = true <;> simp [h]
  · intro x
    by_cases h : (x.id == eid) = true <;> simp [h]

/-- The recompute only reads events through `eventStart`. -/
theorem recompute_congr (ev1 ev2 : List EventRow) (att : List AttRow)
    (p : Nat) (h : ∀ e, eventStart ev1 e = eventStart ev2 e) :
    recomputeFirstEvent ev1 att p = recomputeFirstEvent ev2 att p := by
  have hj : checkedInJoined ev1 att p = checkedInJoined ev2 att p := by
    unfold checkedInJoined
    induction att with
    | nil => rfl
    | cons a rest ih =>
      simp only [List.filterMap_cons]
      rw [h a.eventId, ih]
  unfold recomputeFirstEvent earliestCheckedInEvent
  rw [hj]

/-- Settledness only reads events through `eventStart`. -/
theorem goodRow_congr (ev1 ev2 : List EventRow) (st : IngestState)
    (eventId : Nat) (pr : Nat × CsvRow)
    (h : ∀ e, eventStart ev1 e = eventStart ev2 e)
    (hg : goodRow ev1 st eventId pr) : goodRow ev2 st eventId pr := by
  obtain ⟨h1, h2, h3⟩ := hg
  refine ⟨h1, h2, fun hc => ?_⟩
  rw [← recompute_congr ev1 ev2 st.att pr.1 h]
  exact h3 hc

/-- Recomputing the event aggregate twice from the same rows is the same
as once. -/
theorem applyEventCount_idem (ev : List EventRow) (att : List AttRow)
    (eid : Nat) :
    applyEventCount (applyEventCount ev att eid) att eid =
      applyEventCount ev att eid := by
  unfold applyEventCount
  rw [List.map_map]
  congr 1
  funext a
  dsimp only [Function.comp]
  by_cases h : (a.id == eid) = true
  · simp [h]
  · simp [h]

/-- Recomputing the person aggregates twice from the same rows is the
same as once. -/
theorem applyPersonCounts_idem (ppl : List Person) (att : List AttRow)
    (eid : Nat) :
    applyPersonCounts (applyPersonCounts ppl att eid) att eid =
      applyPersonCounts ppl att eid := by
  unfold applyPersonCounts
  rw [List.map_map]
  congr 1
  funext p
  dsimp only [Function.comp]
  by_cases h : (att.any fun a => a.eventId == eid && a.personId == p.id) =
      true
  · simp [h]
  · simp [h]

/-- `runAttendanceBatch`, zeta-reduced to its explicit form. -/
theorem runAttendanceBatch_eq (pdt : String → Option Int) (eventId : Nat)
    (db : DB) (rows : List (Nat × CsvRow)) :
    runAttendanceBatch pdt eventId db rows =
      ⟨applyPersonCounts db.people
          (ingestFold pdt db.events eventId
            ⟨db.att, db.tokens, db.nextTokenId⟩ rows).att eventId,
        applyEventCount db.events
          (ingestFold pdt db.events eventId
            ⟨db.att, db.tokens, db.nextTokenId⟩ rows).att eventId,
        (ingestFold pdt db.events eventId
          ⟨db.att, db.tokens, db.nextTokenId⟩ rows).att,
        (ingestFold pdt db.events eventId
          ⟨db.att, db.tokens, db.nextTokenId⟩ rows).tokens,
        (ingestFold pdt db.events eventId
          ⟨db.att, db.tokens, db.nextTokenId⟩ rows).nextTokenId⟩ := rfl

/-! ## C2: idempotent re-ingestion -/

/-- C2: inserting an attendance record for an existing (person, event)
pair is a no-op that leaves the row unchanged; a batch keeps attendance
pairs duplicate-free; and re-running the same row set against the same
event reproduces the database state bit for bit — in particular the
recomputed `event.attendance` and `event_attendance_count` aggregates
keep their first-run values. -/
theorem c2_reingest_idempotent (pdt : String → Option Int) (eventId : Nat)
    (db : DB) (rows : List (Nat × CsvRow)) :
    (∀ (att : List AttRow) (p e : Nat) (rv ap ch : Bool) (dt : Option Int)
      (tok : Nat), pairExists att p e = true →
      insertAttendance att p e rv ap ch dt tok = att) ∧
    ((attPairs db.att).Nodup →
      (attPairs (runAttendanceBatch pdt eventId db rows).att).Nodup) ∧
    runAttendanceBatch pdt eventId (runAttendanceBatch pdt eventId db rows)
      rows = runAttendanceBatch pdt eventId db rows := by
  refine ⟨fun att p e rv ap ch dt tok h =>
    insertAttendance_of_pairExists att p e rv ap ch dt tok h, ?_, ?_⟩
  · intro h
    exact attPairs_ingestFold pdt db.events eventId rows
      ⟨db.att, db.tokens, db.nextTokenId⟩ h
  · have hGood := allGood_fold pdt db.events eventId rows
      ⟨db.att, db.tokens, db.nextTokenId⟩
    have hGood1 : ∀ pr ∈ rows, goodRow
        (applyEventCount db.events
          (ingestFold pdt db.events eventId
            ⟨db.att, db.tokens, db.nextTokenId⟩ rows).att eventId)
        (ingestFold pdt db.events eventId
          ⟨db.att, db.tokens, db.nextTokenId⟩ rows) eventId pr := by
      intro pr hpr
      apply goodRow_congr db.events _ _ eventId pr
      · intro e2
        exact (eventStart_applyEventCount db.events _ eventId e2).symm
      · exact hGood pr hpr
    have hnoop := ingestFold_noop pdt
      (applyEventCount db.events
        (ingestFold pdt db.events eventId
          ⟨db.att, db.tokens, db.nextTokenId⟩ rows).att eventId)
      eventId rows
      (ingestFold pdt db.events eventId
        ⟨db.att, db.tokens, db.nextTokenId⟩ rows) hGood1
    rw [runAttendanceBatch_eq pdt eventId db rows,
      runAttendanceBatch_eq pdt eventId _ rows]
    dsimp only
    rw [show (⟨(ingestFold pdt db.events eventId
        ⟨db.att, db.tokens, db.nextTokenId⟩ rows).att,
        (ingestFold pdt db.events eventId
          ⟨db.att, db.tokens, db.nextTokenId⟩ rows).tokens,
        (ingestFold pdt db.events eventId
          ⟨db.att, db.tokens, db.nextTokenId⟩ rows).nextTokenId⟩ :
        IngestState) =
      ingestFold pdt db.events eventId
        ⟨db.att, db.tokens, db.nextTokenId⟩ rows from rfl]
    rw [hnoop, applyEventCount_idem, applyPersonCounts_idem]

/-- C2 witness: a concrete one-row batch — the duplicate insert is a
no-op, keys stay unique, and a verbatim re-run reproduces the state. -/
theorem c2_reingest_idempotent_w :
    insertAttendance [⟨1, 2, true, true, true, none, false, 7⟩] 1 2 true
        true true none 7 = [⟨1, 2, true, true, true, none, false, 7⟩] ∧
    (attPairs (runAttendanceBatch (fun _ => none) 2
      ⟨[⟨1, "Ann", "Lee", none, none, none, none, none, none, none, 0, 0⟩],
        [⟨2, 100, 0⟩], [], [], 1⟩
      [(1, ⟨some "completed", some "1", none, some "alice"⟩)]).att).Nodup ∧
    runAttendanceBatch (fun _ => none) 2
        (runAttendanceBatch (fun _ => none) 2
          ⟨[⟨1, "Ann", "Lee", none, none, none, none, none, none, none, 0,
            0⟩], [⟨2, 100, 0⟩], [], [], 1⟩
          [(1, ⟨some "completed", some "1", none, some "alice"⟩)])
        [(1, ⟨some "completed", some "1", none, some "alice"⟩)] =
      runAttendanceBatch (fun _ => none) 2
        ⟨[⟨1, "Ann", "Lee", none, none, none, none, none, none, none, 0,
          0⟩], [⟨2, 100, 0⟩], [], [], 1⟩
        [(1, ⟨some "completed", some "1", none, some "alice"⟩)] :=
  ⟨(c2_reingest_idempotent (fun _ => none) 2
      ⟨[⟨1, "Ann", "Lee", none, none, none, none, none, none, none, 0, 0⟩],
        [⟨2, 100, 0⟩], [], [], 1⟩
      [(1, ⟨some "completed", some "1", none, some "alice"⟩)]).1
      [⟨1, 2, true, true, true, none, false, 7⟩] 1 2 true true true none 7
      (by decide),
    (c2_reingest_idempotent (fun _ => none) 2
      ⟨[⟨1, "Ann", "Lee", none, none, none, none, none, none, none, 0, 0⟩],
        [⟨2, 100, 0⟩], [], [], 1⟩
      [(1, ⟨some "completed", some "1", none, some "alice"⟩)]).2.1
      (by decide),
    (c2_reingest_idempotent (fun _ => none) 2
      ⟨[⟨1, "Ann", "Lee", none, none, none, none, none, none, none, 0, 0⟩],
        [⟨2, 100, 0⟩], [], [], 1⟩
      [(1, ⟨some "completed", some "1", none, some "alice"⟩)]).2.2⟩

/-! ## C1 helper lemmas -/

/-- After the flag assignment, the person's flagged rows are exactly their
rows for the chosen event. -/
theorem filter_flag_after_assign (att1 : List AttRow) (pid e : Nat) :
    ((att1.map (flagAssign pid e)).filter
      (fun a => a.personId == pid && a.isFirstEvent)).length =
    (att1.filter (fun a => a.personId == pid && a.eventId == e)).length := by
  induction att1 with
  | nil => rfl
  | cons a rest ih =>
    simp only [List.map_cons, List.filter_cons]
    by_cases h1 : (a.personId == pid) = true
    · by_cases h2 : (a.eventId == e) = true
      · simp [flagAssign, h1, h2, ih]
      · simp [flagAssign, h1, h2, ih]
    · simp [flagAssign, h1, ih]

/-- With duplicate-free pairs, a present pair is carried by exactly one
row. -/
theorem count_pair_one (att : List AttRow) (p e : Nat)
    (hnd : (attPairs att).Nodup) (hex : pairExists att p e = true) :
    (att.filter (fun a => a.personId == p && a.eventId == e)).length = 1 := by
  induction att with
  | nil => cases hex
  | cons a rest ih =>
    unfold attPairs at hnd
    simp only [List.map_cons, List.nodup_cons] at hnd
    obtain ⟨hna, hnrest⟩ := hnd
    by_cases hc : (a.personId == p && a.eventId == e) = true
    · rw [List.filter_cons, if_pos hc]
      have hrest : rest.filter
          (fun x => x.personId == p && x.eventId == e) = [] := by
        rw [List.filter_eq_nil]
        intro x hx hpx
        rcases (Bool.and_eq_true _ _).mp hc with ⟨ha1, ha2⟩
        rcases (Bool.and_eq_true _ _).mp hpx with ⟨hx1, hx2⟩
        apply hna
        have heq : (a.personId, a.eventId) = (x.personId, x.eventId) := by
          rw [eq_of_beq ha1, eq_of_beq ha2, eq_of_beq hx1, eq_of_beq hx2]
        rw [heq]
        exact List.mem_map_of_mem _ hx
      rw [hrest]
      rfl
    · rw [List.filter_cons, if_neg hc]
      apply ih hnrest
      unfold pairExists at hex ⊢
      simp only [List.any_cons] at hex
      rcases (Bool.or_eq_true _ _).mp hex with h | h
      · exact absurd h hc
      · exact h

/-- With duplicate-free pairs, two rows with the same pair are equal. -/
theorem pair_unique {att : List AttRow} (hnd : (attPairs att).Nodup)
    {x y : AttRow} (hx : x ∈ att) (hy : y ∈ att)
    (hp : x.personId = y.personId) (he : x.eventId = y.eventId) : x = y := by
  rcases List.get?_of_mem hx with ⟨i, hi⟩
  rcases List.get?_of_mem hy with ⟨j, hj⟩
  have hmi : (attPairs att).get? i = some (x.personId, x.eventId) := by
    unfold attPairs
    rw [List.get?_map, hi, Option.map_some']
  have hmj : (attPairs att).get? j = some (y.personId, y.eventId) := by
    unfold attPairs
    rw [List.get?_map, hj, Option.map_some']
  have hlen : i < (attPairs att).length := by
    unfold attPairs
    rw [List.length_map]
    exact (List.get?_eq_some.mp hi).1
  have hij : i = j := by
    apply List.get?_inj hlen hnd
    rw [hmi, hmj, hp, he]
  rw [hij] at hi
  rw [hi] at hj
  exact Option.some_inj.mp hj

/-- The foreign-key property survives the insert of a row for an event
that exists. -/
theorem fk_insert (events : List EventRow) (att : List AttRow)
    (pid eid : Nat) (rv ap ch : Bool) (dt : Option Int) (tok : Nat)
    (hFK : ∀ a ∈ att, (eventStart events a.eventId).isSome = true)
    (hFKe : (eventStart events eid).isSome = true) :
    ∀ a ∈ insertAttendance att pid eid rv ap ch dt tok,
      (eventStart events a.eventId).isSome = true := by
  intro a ha
  unfold insertAttendance at ha
  by_cases hp : pairExists att pid eid = true
  · rw [if_pos hp] at ha
    exact hFK a ha
  · rw [if_neg hp] at ha
    rcases List.mem_append.mp ha with h | h
    · exact hFK a h
    · simp only [List.mem_singleton] at h
      subst h
      exact hFKe

/-! ## C1: the first-event invariant -/

/-- C1: whatever attendance state a person starts from (so in whatever
order their checked-in rows were added), after `create_attendance_record`
processes a checked-in row for them, exactly one of their attendance rows
carries `is_first_event`, and it is a checked-in row whose event start
time is no later than that of any of their checked-in rows — the flag is
fully recomputed on every checked-in insert. -/
theorem c1_first_event_invariant (pdt : String → Option Int)
    (events : List EventRow) (st : IngestState) (pid eventId : Nat)
    (row : CsvRow)
    (hchk : rowCheckedIn row = true)
    (huniq : (attPairs st.att).Nodup)
    (hFK : ∀ a ∈ st.att, (eventStart events a.eventId).isSome = true)
    (hFKe : (eventStart events eventId).isSome = true)
    (hex : ∃ a ∈ (create_attendance_record pdt events st pid eventId
      row).1.att, a.personId = pid ∧ a.checkedIn = true) :
    C1FirstEvent events
      (create_attendance_record pdt events st pid eventId row).1.att pid := by
  have hatt : (create_attendance_record pdt events st pid eventId
      row).1.att =
      recomputeFirstEvent events
        (insertAttendance st.att pid eventId (rowRsvp row) (rowApproved row)
          (rowCheckedIn row) (rowRsvpDatetime pdt row)
          (find_or_create_invite_token st.tokens st.nextTokenId eventId
            row.trackingLink).2) pid := by
    rw [create_attendance_record_eq]
    show (if rowCheckedIn row = true then _ else _) = _
    rw [if_pos hchk]
  have huniq1 : (attPairs (insertAttendance st.att pid eventId (rowRsvp row)
      (rowApproved row) (rowCheckedIn row) (rowRsvpDatetime pdt row)
      (find_or_create_invite_token st.tokens st.nextTokenId eventId
        row.trackingLink).2)).Nodup :=
    attPairs_nodup_insert _ _ _ _ _ _ _ _ huniq
  have hFK1 : ∀ a ∈ insertAttendance st.att pid eventId (rowRsvp row)
      (rowApproved row) (rowCheckedIn row) (rowRsvpDatetime pdt row)
      (find_or_create_invite_token st.tokens st.nextTokenId eventId
        row.trackingLink).2,
      (eventStart events a.eventId).isSome = true :=
    fk_insert events st.att pid eventId _ _ _ _ _ hFK hFKe
  rw [hatt] at hex ⊢
  set att1 := insertAttendance st.att pid eventId (rowRsvp row)
    (rowApproved row) (rowCheckedIn row) (rowRsvpDatetime pdt row)
    (find_or_create_invite_token st.tokens st.nextTokenId eventId
      row.trackingLink).2 with hA
  rcases he : earliestCheckedInEvent events att1 pid with _ | e
  · exfalso
    rw [recompute_of_earliest_none he] at hex
    rcases hex with ⟨a, ha, hap, hac⟩
    rcases Option.isSome_iff_exists.mp (hFK1 a ha) with ⟨s, hs⟩
    have hmem : (a.eventId, s) ∈ checkedInJoined events att1 pid :=
      (checkedInJoined_mem events att1 pid a.eventId s).mpr
        ⟨a, ha, hap, hac, rfl, hs⟩
    rw [earliest_none events att1 pid he] at hmem
    cases hmem
  · rw [recompute_of_earliest_some he, setFlags_eq]
    rcases earliest_spec events att1 pid e he with ⟨s0, hmem0, hmin⟩
    rcases (checkedInJoined_mem events att1 pid e s0).mp hmem0 with
      ⟨c, hcmem, hcp, hcc, hce, hcs⟩
    constructor
    · rw [filter_flag_after_assign]
      exact count_pair_one att1 pid e huniq1
        (earliest_pairExists events att1 pid e he)
    · intro a ha hap haf
      rcases List.mem_map.mp ha with ⟨a0, ha0, rfl⟩
      by_cases h1 : (a0.personId == pid) = true
      · have hflag : (flagAssign pid e a0).isFirstEvent =
            (a0.eventId == e) := by
          unfold flagAssign
          rw [if_pos h1]
        rw [hflag] at haf
        have hae : a0.eventId = e := eq_of_beq haf
        have ha0c : a0 = c :=
          pair_unique huniq1 ha0 hcmem ((eq_of_beq h1).trans hcp.symm)
            (hae.trans hce.symm)
        constructor
        · rw [flagAssign_checkedIn, ha0c]
          exact hcc
        · intro b hb hbp hbc sa sb hsa hsb
          rcases List.mem_map.mp hb with ⟨b0, hb0, rfl⟩
          have hbp0 : b0.personId = pid := by
            rw [← flagAssign_personId pid e b0]
            exact hbp
          have hbc0 : b0.checkedIn = true := by
            rw [← flagAssign_checkedIn pid e b0]
            exact hbc
          rw [flagAssign_eventId pid e b0] at hsb
          have hbmem : (b0.eventId, sb) ∈ checkedInJoined events att1 pid :=
            (checkedInJoined_mem events att1 pid b0.eventId sb).mpr
              ⟨b0, hb0, hbp0, hbc0, rfl, hsb⟩
          rw [flagAssign_eventId pid e a0, hae] at hsa
          have hsa0 : sa = s0 := by
            rw [hsa] at hcs
            exact Option.some_inj.mp hcs
          rw [hsa0]
          exact hmin _ hbmem
      · exfalso
        have hfa : flagAssign pid e a0 = a0 := by
          unfold flagAssign
          rw [if_neg h1]
        rw [hfa] at hap
        exact h1 (beq_iff_eq.mpr hap)

/-- C1 witness: a person already checked in to an earlier event (start 50)
checks in to a later one (start 100); after processing, their flags
satisfy the first-event invariant. -/
theorem c1_first_event_invariant_w :
    C1FirstEvent [⟨1, 50, 0⟩, ⟨2, 100, 0⟩]
      ((create_attendance_record (fun _ => none) [⟨1, 50, 0⟩, ⟨2, 100, 0⟩]
        ⟨[⟨1, 1, true, true, true, none, true, 0⟩], [], 0⟩ 1 2
        ⟨some "completed", some "yes", none, none⟩).1.att) 1 :=
  c1_first_event_invariant (fun _ => none) [⟨1, 50, 0⟩, ⟨2, 100, 0⟩]
    ⟨[⟨1, 1, true, true, true, none, true, 0⟩], [], 0⟩ 1 2
    ⟨some "completed", some "yes", none, none⟩
    (by decide) (by decide) (by decide) (by decide) (by decide)

end Luma
